import Mathlib

/-!
Verification of the Socks maze game (src/src/App.jsx).

The simulation core of the source file is shallowly embedded here:

* the maze generator `generateMaze` (recursive randomized carving,
  extra-passage injection, dead-end elimination),
* bone placement `placeBones`,
* the game state `GState` together with every state-mutating handler of the
  component (movement tick, catcher movement, collision handling, item
  spawn/despawn/movement, level lifecycle, resets).

A grid is represented by its set of open cells (`maze[y][x] === 0` in the
source becomes membership in a `Finset (Int × Int)`; every other cell is a
wall).  JavaScript `Math.random()` draws are modelled by oracle functions
passed explicitly: a stream `Nat → Nat` for numeric picks (used through
`% n`, covering exactly the values `Math.floor(Math.random()*n)` can take),
a stream `Nat → List CarveDir` for the direction shuffles of the carver, and
a stream `Nat → Bool` for the `Math.random() < 0.4` coin of `placeBones`.
All theorems quantify over every oracle, hence over every sequence of random
draws the source can see.  The recursive carver carries a fuel argument that
bounds only the recursion depth; all invariants proved about it hold for
every fuel value.
-/

/-- `MAZE_WIDTH` from the source. -/
def MAZE_WIDTH : Int := 21

/-- `MAZE_HEIGHT` from the source. -/
def MAZE_HEIGHT : Int := 17

/-- A cell coordinate `(x, y)`. -/
abbrev Cell := Int × Int

/-- A grid, given by its set of open (walkable) cells. -/
abbrev Grid := Finset Cell

/-- The four orthogonal unit offsets, in the enumeration order used throughout
the source: `[0,-1], [0,1], [-1,0], [1,0]` (up, down, left, right). -/
def nbrDirs : List Cell := [(0, -1), (0, 1), (-1, 0), (1, 0)]

/-- Number of open orthogonal neighbours of `p` (the `openNeighbors.length`
computation of the source; out-of-range indices read `undefined` there and are
never counted, which the open-cell-set representation reproduces because only
in-range cells are ever inserted). -/
def countOpenNbrs (g : Grid) (p : Cell) : Nat :=
  (nbrDirs.filter (fun d => decide ((p.1 + d.1, p.2 + d.2) ∈ g))).length

/-- Interior bounds test used by the carver and the dead-end fixer:
`x > 0 && x < MAZE_WIDTH - 1 && y > 0 && y < MAZE_HEIGHT - 1`. -/
def isInterior (p : Cell) : Prop :=
  0 < p.1 ∧ p.1 < MAZE_WIDTH - 1 ∧ 0 < p.2 ∧ p.2 < MAZE_HEIGHT - 1

instance (p : Cell) : Decidable (isInterior p) := by
  unfold isInterior; infer_instance

/-- The four two-step carving directions of `generateMaze`. -/
inductive CarveDir where
  | up
  | down
  | left
  | right
deriving DecidableEq

/-- The two-step offset of a carving direction, in source order
`[0,-2], [0,2], [-2,0], [2,0]`. -/
def CarveDir.delta : CarveDir → Cell
  | .up => (0, -2)
  | .down => (0, 2)
  | .left => (-2, 0)
  | .right => (2, 0)

/-- The carving-direction list before shuffling, in source order. -/
def carveDirs : List CarveDir := [.up, .down, .left, .right]

/-- The recursive carver.  `carveAux π fuel ds g p k` is the body of
`carve(p)` after `maze[p] = 0` has been set, processing the shuffled
direction list `ds`; `π k` supplies the shuffle of the `k`-th nested call.
Entering a neighbour `q` opens the midpoint and `q`, then runs the nested
call (which in the source opens `q` first thing) and continues with the
remaining directions.  `fuel` bounds the recursion depth only. -/
def carveAux (π : Nat → List CarveDir) :
    Nat → List CarveDir → Grid → Cell → Nat → Grid × Nat
  | 0, _, g, _, k => (g, k)
  | _ + 1, [], g, _, k => (g, k)
  | fuel + 1, d :: ds, g, p, k =>
    let q : Cell := (p.1 + d.delta.1, p.2 + d.delta.2)
    if isInterior q ∧ q ∉ g then
      let mid : Cell := (p.1 + d.delta.1 / 2, p.2 + d.delta.2 / 2)
      let r := carveAux π fuel (π k) (insert q (insert mid g)) q (k + 1)
      carveAux π fuel ds r.1 p r.2
    else
      carveAux π fuel ds g p k

/-- Depth bound given to the carver; the real recursion depth is bounded by a
small multiple of the number of interior cells, far below this. -/
def carveFuel : Nat := 2000

/-- `carve(1, 1)` on the all-wall grid, as called by `generateMaze`. -/
def carvedGrid (π : Nat → List CarveDir) : Grid × Nat :=
  carveAux π carveFuel (π 0) (insert ((1 : Int), (1 : Int)) ∅) (1, 1) 1

/-- The extra-passage loop: 30 times, draw `x ∈ [1, 19]` and `y ∈ [1, 15]`;
if the cell is a wall with at least two open orthogonal neighbours, open it. -/
def extraPassages (ρ : Nat → Nat) : Nat → Grid → Nat → Grid × Nat
  | 0, g, k => (g, k)
  | n + 1, g, k =>
    let x : Int := (ρ k % 19 : Nat) + 1
    let y : Int := (ρ (k + 1) % 15 : Nat) + 1
    if (x, y) ∉ g ∧ 2 ≤ countOpenNbrs g (x, y) then
      extraPassages ρ n (insert (x, y) g) (k + 2)
    else
      extraPassages ρ n g (k + 2)

/-- Wall neighbours of a dead end that may be opened: the orthogonal offsets
whose target is interior and currently a wall. -/
def wallNbrs (g : Grid) (p : Cell) : List Cell :=
  nbrDirs.filter (fun d =>
    decide (isInterior (p.1 + d.1, p.2 + d.2) ∧ (p.1 + d.1, p.2 + d.2) ∉ g))

/-- The interior cells in the scan order of the source's nested loops
(`y` from 1 to 15 outer, `x` from 1 to 19 inner). -/
def interiorCells : List Cell :=
  (List.range' 1 15).flatMap (fun y =>
    (List.range' 1 19).map (fun x => ((Nat.cast x : Int), (Nat.cast y : Int))))

/-- One dead-end-elimination scan over a list of cells.  A scanned open cell
with exactly one open neighbour sets the `hasDeadEnds` flag and, when an
openable wall neighbour exists, opens a randomly chosen one. -/
def passAux (ρ : Nat → Nat) :
    List Cell → Grid → Bool → Nat → Grid × Bool × Nat
  | [], g, ch, k => (g, ch, k)
  | c :: cs, g, ch, k =>
    if c ∈ g ∧ countOpenNbrs g c = 1 then
      let wn := wallNbrs g c
      if h : wn ≠ [] then
        let d := wn.get ⟨ρ k % wn.length, Nat.mod_lt _ (List.length_pos.mpr h)⟩
        passAux ρ cs (insert (c.1 + d.1, c.2 + d.2) g) true (k + 1)
      else
        passAux ρ cs g true k
    else
      passAux ρ cs g ch k

/-- One full `for y / for x` dead-end scan. -/
def deadEndPass (ρ : Nat → Nat) (g : Grid) (k : Nat) : Grid × Bool × Nat :=
  passAux ρ interiorCells g false k

/-- The `while (hasDeadEnds)` loop.  The source has no iteration cap; the
fuel here is shown (theorem `C6_dead_end_loop_terminates`) never to run out
for the fuel value used by `generateMaze`, so the `false` result of the
fuel-exhausted branch is unreachable there.  The Boolean result records that
the loop exited because a scan found no dead end. -/
def deadEndsLoop (ρ : Nat → Nat) : Nat → Grid → Nat → Grid × Nat × Bool
  | 0, g, k => (g, k, false)
  | fuel + 1, g, k =>
    let r := deadEndPass ρ g k
    if r.2.1 then deadEndsLoop ρ fuel r.1 r.2.2 else (r.1, r.2.2, true)

/-- `generateMaze()`: carve from `(1,1)`, add extra passages, remove dead
ends. -/
def generateMaze (π : Nat → List CarveDir) (ρ : Nat → Nat) : Grid :=
  let c := carvedGrid π
  let e := extraPassages ρ 30 c.1 0
  (deadEndsLoop ρ 357 e.1 e.2).1

/-! ### Invariants of the carver -/

theorem carveAux_subset (π : Nat → List CarveDir) :
    ∀ (fuel : Nat) (ds : List CarveDir) (g : Grid) (p : Cell) (k : Nat),
      g ⊆ (carveAux π fuel ds g p k).1 := by
  intro fuel
  induction fuel with
  | zero => intro ds g p k; simp [carveAux]
  | succ n ih =>
    intro ds g p k
    cases ds with
    | nil => simp [carveAux]
    | cons d ds =>
      simp only [carveAux]
      split
      · refine Finset.Subset.trans ?_ (ih ds _ p _)
        refine Finset.Subset.trans ?_ (ih (π k) _ _ (k + 1))
        exact Finset.Subset.trans (Finset.subset_insert _ _) (Finset.subset_insert _ _)
      · exact ih ds g p k

theorem mid_interior (d : CarveDir) (p : Cell) (hp : isInterior p)
    (hq : isInterior (p.1 + d.delta.1, p.2 + d.delta.2)) :
    isInterior (p.1 + d.delta.1 / 2, p.2 + d.delta.2 / 2) := by
  obtain ⟨x, y⟩ := p
  cases d <;>
    simp only [CarveDir.delta, isInterior, MAZE_WIDTH, MAZE_HEIGHT] at hp hq ⊢ <;>
    norm_num at hq ⊢ <;> omega

theorem carveAux_interior (π : Nat → List CarveDir) :
    ∀ (fuel : Nat) (ds : List CarveDir) (g : Grid) (p : Cell) (k : Nat),
      (∀ c ∈ g, isInterior c) → isInterior p →
      ∀ c ∈ (carveAux π fuel ds g p k).1, isInterior c := by
  intro fuel
  induction fuel with
  | zero => intro ds g p k hg _ c hc; rw [carveAux] at hc; exact hg c hc
  | succ n ih =>
    intro ds g p k hg hp
    cases ds with
    | nil => intro c hc; rw [carveAux] at hc; exact hg c hc
    | cons d ds =>
      simp only [carveAux]
      split
      case isTrue h =>
        refine ih ds _ p _ ?_ hp
        refine ih (π k) _ _ (k + 1) ?_ h.1
        intro c hc
        rcases Finset.mem_insert.mp hc with rfl | hc
        · exact h.1
        rcases Finset.mem_insert.mp hc with rfl | hc
        · exact mid_interior d p hp h.1
        · exact hg c hc
      case isFalse h => exact ih ds g p k hg hp

/-! ### Reachability inside the open-cell set -/

/-- Two cells are orthogonally adjacent. -/
def Adjacent (a b : Cell) : Prop := (b.1 - a.1, b.2 - a.2) ∈ nbrDirs

/-- One step of a path through open cells: move to an adjacent open cell. -/
def Step (g : Grid) (a b : Cell) : Prop := Adjacent a b ∧ b ∈ g

/-- `b` is reachable from `a` through open cells of `g`. -/
def Reach (g : Grid) (a b : Cell) : Prop := Relation.ReflTransGen (Step g) a b

theorem adjacent_symm {a b : Cell} (h : Adjacent a b) : Adjacent b a := by
  simp only [Adjacent, nbrDirs, List.mem_cons, List.not_mem_nil, or_false,
    Prod.mk.injEq, Prod.ext_iff] at h ⊢
  omega

theorem step_mono {g g' : Grid} (hsub : g ⊆ g') {a b : Cell} (h : Step g a b) :
    Step g' a b := ⟨h.1, hsub h.2⟩

theorem reach_mono {g g' : Grid} (hsub : g ⊆ g') {a b : Cell} (h : Reach g a b) :
    Reach g' a b :=
  Relation.ReflTransGen.mono (fun _ _ hs => step_mono hsub hs) h

theorem reach_tail_step {g : Grid} {a b c : Cell} (h : Reach g a b)
    (hadj : Adjacent b c) (hc : c ∈ g) : Reach g a c :=
  Relation.ReflTransGen.tail h ⟨hadj, hc⟩

theorem reach_mem {g : Grid} {a b : Cell} (h : Reach g a b) : b = a ∨ b ∈ g := by
  induction h with
  | refl => exact Or.inl rfl
  | tail _ hstep _ => exact Or.inr hstep.2

theorem countOpenNbrs_pos {g : Grid} {p : Cell}
    (h : ∃ d ∈ nbrDirs, (p.1 + d.1, p.2 + d.2) ∈ g) : 0 < countOpenNbrs g p := by
  obtain ⟨d, hd, hmem⟩ := h
  have : 0 < (nbrDirs.filter (fun d => decide ((p.1 + d.1, p.2 + d.2) ∈ g))).length := by
    rw [List.length_pos]
    intro hnil
    have hmf : d ∈ nbrDirs.filter (fun e => decide ((p.1 + e.1, p.2 + e.2) ∈ g)) :=
      List.mem_filter.mpr ⟨hd, decide_eq_true hmem⟩
    rw [hnil] at hmf
    exact List.not_mem_nil _ hmf
  simpa [countOpenNbrs] using this

/-- An open cell adjacent to `p` contributes to `p`'s open-neighbour count. -/
theorem countOpenNbrs_pos_of_adjacent {g : Grid} {a p : Cell}
    (hadj : Adjacent a p) (ha : a ∈ g) : 0 < countOpenNbrs g p := by
  refine countOpenNbrs_pos ⟨(a.1 - p.1, a.2 - p.2), adjacent_symm hadj, ?_⟩
  simpa using ha

theorem adj_mid (d : CarveDir) (p : Cell) :
    Adjacent p (p.1 + d.delta.1 / 2, p.2 + d.delta.2 / 2) := by
  cases d <;>
    · show (_, _) ∈ nbrDirs
      norm_num [CarveDir.delta, nbrDirs]

theorem adj_target (d : CarveDir) (p : Cell) :
    Adjacent (p.1 + d.delta.1 / 2, p.2 + d.delta.2 / 2)
      (p.1 + d.delta.1, p.2 + d.delta.2) := by
  cases d <;>
    · show (_, _) ∈ nbrDirs
      norm_num [CarveDir.delta, nbrDirs]

theorem carveAux_conn (π : Nat → List CarveDir) :
    ∀ (fuel : Nat) (ds : List CarveDir) (g : Grid) (p : Cell) (k : Nat),
      p ∈ g → (∀ c ∈ g, Reach g (1, 1) c) →
      ∀ c ∈ (carveAux π fuel ds g p k).1, Reach (carveAux π fuel ds g p k).1 (1, 1) c := by
  intro fuel
  induction fuel with
  | zero => intro ds g p k _ hg c hc; rw [carveAux] at hc ⊢; exact hg c hc
  | succ n ih =>
    intro ds g p k hp hg
    cases ds with
    | nil => intro c hc; rw [carveAux] at hc ⊢; exact hg c hc
    | cons d ds =>
      simp only [carveAux]
      split
      case isTrue h =>
        set q : Cell := (p.1 + d.delta.1, p.2 + d.delta.2) with hq
        set mid : Cell := (p.1 + d.delta.1 / 2, p.2 + d.delta.2 / 2) with hmid
        have hsub1 : g ⊆ insert q (insert mid g) :=
          Finset.Subset.trans (Finset.subset_insert _ _) (Finset.subset_insert _ _)
        have hmidmem : mid ∈ insert q (insert mid g) :=
          Finset.mem_insert.mpr (Or.inr (Finset.mem_insert_self _ _))
        have hqmem : q ∈ insert q (insert mid g) := Finset.mem_insert_self _ _
        have hconn2 : ∀ c ∈ insert q (insert mid g),
            Reach (insert q (insert mid g)) (1, 1) c := by
          intro c hc
          rcases Finset.mem_insert.mp hc with rfl | hc
          · exact reach_tail_step
              (reach_tail_step (reach_mono hsub1 (hg p hp)) (adj_mid d p) hmidmem)
              (adj_target d p) hqmem
          rcases Finset.mem_insert.mp hc with rfl | hc
          · exact reach_tail_step (reach_mono hsub1 (hg p hp)) (adj_mid d p) hmidmem
          · exact reach_mono hsub1 (hg c hc)
        refine ih ds _ p _ ?_ (ih (π k) _ q (k + 1) hqmem hconn2)
        exact carveAux_subset π n (π k) _ q (k + 1) (hsub1 hp)
      case isFalse h => exact ih ds g p k hp hg

/-- Processing the shuffled direction list of the first `carve(1,1)` call on
the all-wall grid opens `(1,2)` or `(2,1)` as soon as the first of the two
in-bounds directions (`down` or `right`) is reached: the grid is still the
singleton start cell at that moment, so the target is a wall and the midpoint
neighbour of the start cell gets opened. -/
theorem carveAux_start (π : Nat → List CarveDir) :
    ∀ (ds : List CarveDir) (fuel k : Nat),
      ds.length ≤ fuel → (CarveDir.down ∈ ds ∨ CarveDir.right ∈ ds) →
      (1, 2) ∈ (carveAux π fuel ds (insert ((1 : Int), (1 : Int)) ∅) (1, 1) k).1 ∨
      (2, 1) ∈ (carveAux π fuel ds (insert ((1 : Int), (1 : Int)) ∅) (1, 1) k).1 := by
  intro ds
  induction ds with
  | nil => intro fuel k _ hmem; simp at hmem
  | cons d ds ih =>
    intro fuel k hlen hmem
    cases fuel with
    | zero => simp at hlen
    | succ n =>
      have hlen' : ds.length ≤ n := by simpa using hlen
      cases d with
      | up =>
        rw [carveAux, if_neg (by decide)]
        refine ih n k hlen' ?_
        rcases hmem with hmem | hmem
        · rcases List.mem_cons.mp hmem with h | h
          · cases h
          · exact Or.inl h
        · rcases List.mem_cons.mp hmem with h | h
          · cases h
          · exact Or.inr h
      | left =>
        rw [carveAux, if_neg (by decide)]
        refine ih n k hlen' ?_
        rcases hmem with hmem | hmem
        · rcases List.mem_cons.mp hmem with h | h
          · cases h
          · exact Or.inl h
        · rcases List.mem_cons.mp hmem with h | h
          · cases h
          · exact Or.inr h
      | down =>
        rw [carveAux, if_pos (by decide)]
        refine Or.inl (carveAux_subset π n ds _ _ _ (carveAux_subset π n (π k) _ _ _ ?_))
        decide
      | right =>
        rw [carveAux, if_pos (by decide)]
        refine Or.inr (carveAux_subset π n ds _ _ _ (carveAux_subset π n (π k) _ _ _ ?_))
        decide

/-! ### Invariants of the extra-passage loop -/

theorem extraPassages_subset (ρ : Nat → Nat) :
    ∀ (n : Nat) (g : Grid) (k : Nat), g ⊆ (extraPassages ρ n g k).1 := by
  intro n
  induction n with
  | zero => intro g k; simp [extraPassages]
  | succ m ih =>
    intro g k
    rw [extraPassages]
    split
    · exact Finset.Subset.trans (Finset.subset_insert _ _) (ih _ _)
    · exact ih g _

theorem extraPassages_interior (ρ : Nat → Nat) :
    ∀ (n : Nat) (g : Grid) (k : Nat), (∀ c ∈ g, isInterior c) →
      ∀ c ∈ (extraPassages ρ n g k).1, isInterior c := by
  intro n
  induction n with
  | zero => intro g k hg c hc; rw [extraPassages] at hc; exact hg c hc
  | succ m ih =>
    intro g k hg
    rw [extraPassages]
    split
    · refine ih _ _ ?_
      intro c hc
      rcases Finset.mem_insert.mp hc with rfl | hc
      · constructor
        · have := Nat.mod_lt (ρ k) (y := 19) (by norm_num)
          omega
        refine ⟨?_, ?_, ?_⟩
        · have := Nat.mod_lt (ρ k) (y := 19) (by norm_num)
          simp only [MAZE_WIDTH]
          omega
        · have := Nat.mod_lt (ρ (k + 1)) (y := 15) (by norm_num)
          omega
        · have := Nat.mod_lt (ρ (k + 1)) (y := 15) (by norm_num)
          simp only [MAZE_HEIGHT]
          omega
      · exact hg c hc
    · exact ih g _ hg

theorem extraPassages_conn (ρ : Nat → Nat) :
    ∀ (n : Nat) (g : Grid) (k : Nat), (∀ c ∈ g, Reach g (1, 1) c) →
      ∀ c ∈ (extraPassages ρ n g k).1, Reach (extraPassages ρ n g k).1 (1, 1) c := by
  intro n
  induction n with
  | zero => intro g k hg c hc; rw [extraPassages] at hc ⊢; exact hg c hc
  | succ m ih =>
    intro g k hg
    rw [extraPassages]
    split
    case isTrue h =>
      refine ih _ _ ?_
      set x : Int := (ρ k % 19 : Nat) + 1
      set y : Int := (ρ (k + 1) % 15 : Nat) + 1
      have hnbr : ∃ d ∈ nbrDirs, (x + d.1, y + d.2) ∈ g := by
        have hpos : 0 < countOpenNbrs g (x, y) := by omega
        rw [countOpenNbrs, List.length_pos] at hpos
        obtain ⟨d, hd⟩ := List.exists_mem_of_ne_nil _ hpos
        have := List.mem_filter.mp hd
        exact ⟨d, this.1, of_decide_eq_true this.2⟩
      obtain ⟨d, hd, hdg⟩ := hnbr
      intro c hc
      rcases Finset.mem_insert.mp hc with rfl | hc
      · refine reach_tail_step (reach_mono (Finset.subset_insert _ _) (hg _ hdg))
          (adjacent_symm ?_) (Finset.mem_insert_self _ _)
        show ((x + d.1) - x, (y + d.2) - y) ∈ nbrDirs
        have he : ((x + d.1) - x, (y + d.2) - y) = d := by
          obtain ⟨d1, d2⟩ := d
          simp
        rw [he]
        exact hd
      · exact reach_mono (Finset.subset_insert _ _) (hg c hc)
    case isFalse h => exact ih g _ hg

/-! ### Invariants of the dead-end elimination -/

theorem wallNbrs_mem {g : Grid} {c d : Cell} (h : d ∈ wallNbrs g c) :
    d ∈ nbrDirs ∧ isInterior (c.1 + d.1, c.2 + d.2) ∧ (c.1 + d.1, c.2 + d.2) ∉ g := by
  have h' := List.mem_filter.mp h
  exact ⟨h'.1, (of_decide_eq_true h'.2).1, (of_decide_eq_true h'.2).2⟩

/-- Two distinct open neighbours force an open-neighbour count of at least 2. -/
theorem two_nbrs_le_count {g : Grid} {p : Cell} {d e : Cell}
    (hd : d ∈ nbrDirs) (he : e ∈ nbrDirs) (hne : d ≠ e)
    (hdg : (p.1 + d.1, p.2 + d.2) ∈ g) (heg : (p.1 + e.1, p.2 + e.2) ∈ g) :
    2 ≤ countOpenNbrs g p := by
  rw [countOpenNbrs, ← List.countP_eq_length_filter]
  have hsub : ∀ u ∈ nbrDirs, ∀ v ∈ nbrDirs, u ≠ v →
      [u, v].Sublist nbrDirs ∨ [v, u].Sublist nbrDirs := by decide
  have hcount : ∀ (u v : Cell), [u, v].Sublist nbrDirs →
      (p.1 + u.1, p.2 + u.2) ∈ g → (p.1 + v.1, p.2 + v.2) ∈ g →
      2 ≤ List.countP (fun d => decide ((p.1 + d.1, p.2 + d.2) ∈ g)) nbrDirs := by
    intro u v hs hu hv
    have h2 : List.countP (fun d => decide ((p.1 + d.1, p.2 + d.2) ∈ g)) [u, v] = 2 := by
      simp [List.countP_cons, hu, hv]
    calc 2 = List.countP (fun d => decide ((p.1 + d.1, p.2 + d.2) ∈ g)) [u, v] := h2.symm
      _ ≤ _ := List.Sublist.countP_le _ hs
  rcases hsub d hd e he hne with hs | hs
  · exact hcount d e hs hdg heg
  · exact hcount e d hs heg hdg

/-- A dead end (interior open cell of degree exactly 1) always has an openable
interior wall neighbour: an interior cell has an interior horizontal and an
interior vertical neighbour, and were both open the degree would be at
least 2. -/
theorem wallNbrs_ne_nil {g : Grid} {c : Cell} (hc : isInterior c)
    (hdeg : countOpenNbrs g c = 1) : wallNbrs g c ≠ [] := by
  have key : ∀ d ∈ nbrDirs, isInterior (c.1 + d.1, c.2 + d.2) →
      (c.1 + d.1, c.2 + d.2) ∉ g → wallNbrs g c ≠ [] := by
    intro d hd hint hnot hnil
    have hmemf : d ∈ wallNbrs g c := List.mem_filter.mpr ⟨hd, decide_eq_true ⟨hint, hnot⟩⟩
    rw [hnil] at hmemf
    exact List.not_mem_nil _ hmemf
  obtain ⟨x, y⟩ := c
  obtain ⟨hx0, hx1, hy0, hy1⟩ := hc
  simp only [MAZE_WIDTH, MAZE_HEIGHT] at hx1 hy1
  norm_num at hx1 hy1
  have hh : ∃ dh, (dh = ((1 : Int), (0 : Int)) ∨ dh = (-1, 0)) ∧
      isInterior (x + dh.1, y + dh.2) := by
    by_cases h : x ≤ 18
    · exact ⟨(1, 0), Or.inl rfl, by unfold isInterior MAZE_WIDTH MAZE_HEIGHT; dsimp only; omega⟩
    · exact ⟨(-1, 0), Or.inr rfl, by unfold isInterior MAZE_WIDTH MAZE_HEIGHT; dsimp only; omega⟩
  have hv : ∃ dv, (dv = ((0 : Int), (1 : Int)) ∨ dv = (0, -1)) ∧
      isInterior (x + dv.1, y + dv.2) := by
    by_cases h : y ≤ 14
    · exact ⟨(0, 1), Or.inl rfl, by unfold isInterior MAZE_WIDTH MAZE_HEIGHT; dsimp only; omega⟩
    · exact ⟨(0, -1), Or.inr rfl, by unfold isInterior MAZE_WIDTH MAZE_HEIGHT; dsimp only; omega⟩
  obtain ⟨dh, hdh, hdhint⟩ := hh
  obtain ⟨dv, hdv, hdvint⟩ := hv
  have hdhmem : dh ∈ nbrDirs := by rcases hdh with rfl | rfl <;> decide
  have hdvmem : dv ∈ nbrDirs := by rcases hdv with rfl | rfl <;> decide
  by_cases hho : (x + dh.1, y + dh.2) ∈ g
  · by_cases hvo : (x + dv.1, y + dv.2) ∈ g
    · exfalso
      have hne : dh ≠ dv := by
        rcases hdh with rfl | rfl <;> rcases hdv with rfl | rfl <;> decide
      have := two_nbrs_le_count (p := (x, y)) hdhmem hdvmem hne hho hvo
      omega
    · exact key dv hdvmem hdvint hvo
  · exact key dh hdhmem hdhint hho

theorem passAux_subset (ρ : Nat → Nat) :
    ∀ (cs : List Cell) (g : Grid) (ch : Bool) (k : Nat), g ⊆ (passAux ρ cs g ch k).1 := by
  intro cs
  induction cs with
  | nil => intro g ch k; rw [passAux]
  | cons c cs ih =>
    intro g ch k
    simp only [passAux]
    split
    · split
      · exact Finset.Subset.trans (Finset.subset_insert _ _) (ih _ _ _)
      · exact ih _ _ _
    · exact ih _ _ _

theorem passAux_interior (ρ : Nat → Nat) :
    ∀ (cs : List Cell) (g : Grid) (ch : Bool) (k : Nat), (∀ c ∈ g, isInterior c) →
      ∀ c ∈ (passAux ρ cs g ch k).1, isInterior c := by
  intro cs
  induction cs with
  | nil => intro g ch k hg c hc; rw [passAux] at hc; exact hg c hc
  | cons c cs ih =>
    intro g ch k hg
    simp only [passAux]
    split
    · split
      · refine ih _ _ _ ?_
        intro e he
        rcases Finset.mem_insert.mp he with rfl | he
        · exact (wallNbrs_mem (List.get_mem _ _ _)).2.1
        · exact hg e he
      · exact ih _ _ _ hg
    · exact ih _ _ _ hg

theorem passAux_conn (ρ : Nat → Nat) :
    ∀ (cs : List Cell) (g : Grid) (ch : Bool) (k : Nat),
      (∀ c ∈ g, Reach g (1, 1) c) →
      ∀ c ∈ (passAux ρ cs g ch k).1, Reach (passAux ρ cs g ch k).1 (1, 1) c := by
  intro cs
  induction cs with
  | nil => intro g ch k hg c hc; rw [passAux] at hc ⊢; exact hg c hc
  | cons c cs ih =>
    intro g ch k hg
    simp only [passAux]
    split
    case isTrue htrig =>
      split
      case isTrue hwn =>
        refine ih _ _ _ ?_
        set d := (wallNbrs g c).get
          ⟨ρ k % (wallNbrs g c).length, Nat.mod_lt _ (List.length_pos.mpr hwn)⟩ with hd
        have hdmem : d ∈ wallNbrs g c := List.get_mem _ _ _
        intro e he
        rcases Finset.mem_insert.mp he with rfl | he
        · refine reach_tail_step (reach_mono (Finset.subset_insert _ _) (hg c htrig.1)) ?_
            (Finset.mem_insert_self _ _)
          show ((c.1 + d.1) - c.1, (c.2 + d.2) - c.2) ∈ nbrDirs
          have he' : ((c.1 + d.1) - c.1, (c.2 + d.2) - c.2) = d := by
            obtain ⟨d1, d2⟩ := d
            simp
          rw [he']
          exact (wallNbrs_mem hdmem).1
        · exact reach_mono (Finset.subset_insert _ _) (hg e he)
      case isFalse hwn => exact ih _ _ _ hg
    case isFalse htrig => exact ih _ _ _ hg

theorem passAux_flag (ρ : Nat → Nat) :
    ∀ (cs : List Cell) (g : Grid) (k : Nat), (passAux ρ cs g true k).2.1 = true := by
  intro cs
  induction cs with
  | nil => intro g k; rw [passAux]
  | cons c cs ih =>
    intro g k
    simp only [passAux]
    split
    · split
      · exact ih _ _
      · exact ih _ _
    · exact ih _ _

theorem passAux_false (ρ : Nat → Nat) :
    ∀ (cs : List Cell) (g : Grid) (k : Nat),
      (passAux ρ cs g false k).2.1 = false →
      (passAux ρ cs g false k).1 = g ∧
        ∀ c ∈ cs, ¬(c ∈ g ∧ countOpenNbrs g c = 1) := by
  intro cs
  induction cs with
  | nil => intro g k _; rw [passAux]; exact ⟨rfl, by simp⟩
  | cons c cs ih =>
    intro g k hout
    simp only [passAux] at hout ⊢
    by_cases htrig : c ∈ g ∧ countOpenNbrs g c = 1
    · exfalso
      rw [if_pos htrig] at hout
      split at hout
      · rw [passAux_flag] at hout
        exact Bool.true_eq_false.mp hout
      · rw [passAux_flag] at hout
        exact Bool.true_eq_false.mp hout
    · rw [if_neg htrig] at hout ⊢
      obtain ⟨h1, h2⟩ := ih g k hout
      refine ⟨h1, ?_⟩
      intro e he
      rcases List.mem_cons.mp he with rfl | he
      · exact htrig
      · exact h2 e he

theorem passAux_growth (ρ : Nat → Nat) :
    ∀ (cs : List Cell) (g : Grid) (k : Nat),
      (∀ c ∈ cs, isInterior c) →
      (passAux ρ cs g false k).2.1 = true →
      g.card < (passAux ρ cs g false k).1.card := by
  intro cs
  induction cs with
  | nil =>
    intro g k _ hout
    rw [passAux] at hout
    exact absurd hout (by simp)
  | cons c cs ih =>
    intro g k hcs hout
    simp only [passAux] at hout ⊢
    by_cases htrig : c ∈ g ∧ countOpenNbrs g c = 1
    · rw [if_pos htrig] at hout ⊢
      have hwn : wallNbrs g c ≠ [] :=
        wallNbrs_ne_nil (hcs c (List.mem_cons_self _ _)) htrig.2
      rw [dif_pos hwn] at hout ⊢
      set d := (wallNbrs g c).get
        ⟨ρ k % (wallNbrs g c).length, Nat.mod_lt _ (List.length_pos.mpr hwn)⟩ with hd
      have hdmem : d ∈ wallNbrs g c := List.get_mem _ _ _
      have hnot : (c.1 + d.1, c.2 + d.2) ∉ g := (wallNbrs_mem hdmem).2.2
      calc g.card < (insert (c.1 + d.1, c.2 + d.2) g).card := by
            rw [Finset.card_insert_of_not_mem hnot]
            omega
        _ ≤ (passAux ρ cs (insert (c.1 + d.1, c.2 + d.2) g) true (k + 1)).1.card :=
            Finset.card_le_card (passAux_subset ρ cs _ true (k + 1))
    · rw [if_neg htrig] at hout ⊢
      exact ih g k (fun e he => hcs e (List.mem_cons_of_mem _ he)) hout

theorem mem_interiorCells_iff (p : Cell) : p ∈ interiorCells ↔ isInterior p := by
  obtain ⟨x, y⟩ := p
  constructor
  · intro hp
    rw [interiorCells, List.mem_flatMap] at hp
    obtain ⟨yy, hyy, hin⟩ := hp
    rw [List.mem_map] at hin
    obtain ⟨xx, hxx, heq⟩ := hin
    rw [List.mem_range'_1] at hyy hxx
    rw [Prod.ext_iff] at heq
    obtain ⟨hx, hy⟩ := heq
    dsimp only at hx hy
    show (0 : Int) < x ∧ x < 21 - 1 ∧ 0 < y ∧ y < 17 - 1
    omega
  · intro hp
    have hp' : (0 : Int) < x ∧ x < 21 - 1 ∧ 0 < y ∧ y < 17 - 1 := hp
    obtain ⟨hx0, hx1, hy0, hy1⟩ := hp'
    rw [interiorCells, List.mem_flatMap]
    refine ⟨y.toNat, ?_, ?_⟩
    · rw [List.mem_range'_1]
      omega
    · rw [List.mem_map]
      refine ⟨x.toNat, ?_, ?_⟩
      · rw [List.mem_range'_1]
        omega
      · rw [Prod.ext_iff]
        refine ⟨?_, ?_⟩ <;> dsimp only <;> omega

/-- The interior cells as a finset. -/
def interiorF : Finset Cell := interiorCells.toFinset

theorem subset_interiorF {g : Grid} (hg : ∀ c ∈ g, isInterior c) : g ⊆ interiorF := by
  intro c hc
  rw [interiorF, List.mem_toFinset, mem_interiorCells_iff]
  exact hg c hc

theorem deadEndsLoop_subset (ρ : Nat → Nat) :
    ∀ (fuel : Nat) (g : Grid) (k : Nat), g ⊆ (deadEndsLoop ρ fuel g k).1 := by
  intro fuel
  induction fuel with
  | zero => intro g k; rw [deadEndsLoop]
  | succ n ih =>
    intro g k
    simp only [deadEndsLoop, deadEndPass]
    split
    · exact Finset.Subset.trans (passAux_subset ρ interiorCells g false k) (ih _ _)
    · exact passAux_subset ρ interiorCells g false k

theorem deadEndsLoop_interior (ρ : Nat → Nat) :
    ∀ (fuel : Nat) (g : Grid) (k : Nat), (∀ c ∈ g, isInterior c) →
      ∀ c ∈ (deadEndsLoop ρ fuel g k).1, isInterior c := by
  intro fuel
  induction fuel with
  | zero => intro g k hg c hc; rw [deadEndsLoop] at hc; exact hg c hc
  | succ n ih =>
    intro g k hg
    simp only [deadEndsLoop, deadEndPass]
    split
    · exact ih _ _ (passAux_interior ρ interiorCells g false k hg)
    · exact passAux_interior ρ interiorCells g false k hg

theorem deadEndsLoop_conn (ρ : Nat → Nat) :
    ∀ (fuel : Nat) (g : Grid) (k : Nat), (∀ c ∈ g, Reach g (1, 1) c) →
      ∀ c ∈ (deadEndsLoop ρ fuel g k).1, Reach (deadEndsLoop ρ fuel g k).1 (1, 1) c := by
  intro fuel
  induction fuel with
  | zero => intro g k hg c hc; rw [deadEndsLoop] at hc ⊢; exact hg c hc
  | succ n ih =>
    intro g k hg
    simp only [deadEndsLoop, deadEndPass]
    split
    · exact ih _ _ (passAux_conn ρ interiorCells g false k hg)
    · exact passAux_conn ρ interiorCells g false k hg

theorem interiorCells_interior : ∀ c ∈ interiorCells, isInterior c := by
  intro c hc
  exact (mem_interiorCells_iff c).mp hc

set_option maxRecDepth 10000 in
theorem interiorF_card_le : interiorF.card ≤ 285 := by
  have h1 : interiorF.card ≤ interiorCells.length := interiorCells.toFinset_card_le
  have h2 : interiorCells.length = 285 := by rfl
  omega

/-- Each pass that still finds a dead end strictly grows the open set, which
is bounded by the interior, so the scan loop reaches its fixed point within
the fuel `generateMaze` provides. -/
theorem deadEndsLoop_converges (ρ : Nat → Nat) :
    ∀ (fuel : Nat) (g : Grid) (k : Nat), (∀ c ∈ g, isInterior c) →
      interiorF.card - g.card < fuel → (deadEndsLoop ρ fuel g k).2.2 = true := by
  intro fuel
  induction fuel with
  | zero => intro g k _ hcard; omega
  | succ n ih =>
    intro g k hg hcard
    simp only [deadEndsLoop, deadEndPass]
    split
    case isTrue hflag =>
      refine ih _ _ (passAux_interior ρ interiorCells g false k hg) ?_
      have hgrow : g.card < (passAux ρ interiorCells g false k).1.card :=
        passAux_growth ρ interiorCells g k interiorCells_interior hflag
      have hsub : (passAux ρ interiorCells g false k).1 ⊆ interiorF :=
        subset_interiorF (passAux_interior ρ interiorCells g false k hg)
      have hle := Finset.card_le_card hsub
      omega
    case isFalse hflag => rfl

theorem deadEndsLoop_noDeadEnds (ρ : Nat → Nat) :
    ∀ (fuel : Nat) (g : Grid) (k : Nat), (deadEndsLoop ρ fuel g k).2.2 = true →
      ∀ c ∈ interiorCells,
        ¬(c ∈ (deadEndsLoop ρ fuel g k).1 ∧
          countOpenNbrs (deadEndsLoop ρ fuel g k).1 c = 1) := by
  intro fuel
  induction fuel with
  | zero => intro g k hconv; rw [deadEndsLoop] at hconv; exact absurd hconv (by simp)
  | succ n ih =>
    intro g k
    simp only [deadEndsLoop, deadEndPass]
    split
    case isTrue hflag => exact ih _ _
    case isFalse hflag =>
      intro _ c hc
      have hfalse : (passAux ρ interiorCells g false k).2.1 = false :=
        Bool.not_eq_true _ ▸ (by simpa using hflag)
      obtain ⟨h1, h2⟩ := passAux_false ρ interiorCells g k hfalse
      rw [h1]
      exact h2 c hc

/-! ### Postconditions of `generateMaze` -/

theorem generateMaze_eq (π : Nat → List CarveDir) (ρ : Nat → Nat) :
    generateMaze π ρ =
      (deadEndsLoop ρ 357 (extraPassages ρ 30 (carvedGrid π).1 0).1
        (extraPassages ρ 30 (carvedGrid π).1 0).2).1 := rfl

theorem carvedGrid_interior (π : Nat → List CarveDir) :
    ∀ c ∈ (carvedGrid π).1, isInterior c := by
  refine carveAux_interior π carveFuel (π 0) _ (1, 1) 1 ?_ (by decide)
  intro c hc
  rcases Finset.mem_insert.mp hc with rfl | hc
  · decide
  · exact absurd hc (Finset.not_mem_empty c)

theorem preDeadEnds_interior (π : Nat → List CarveDir) (ρ : Nat → Nat) :
    ∀ c ∈ (extraPassages ρ 30 (carvedGrid π).1 0).1, isInterior c :=
  extraPassages_interior ρ 30 _ 0 (carvedGrid_interior π)

theorem generateMaze_interior (π : Nat → List CarveDir) (ρ : Nat → Nat) :
    ∀ c ∈ generateMaze π ρ, isInterior c := by
  rw [generateMaze_eq]
  exact deadEndsLoop_interior ρ 357 _ _ (preDeadEnds_interior π ρ)

theorem generateMaze_conn (π : Nat → List CarveDir) (ρ : Nat → Nat) :
    ∀ c ∈ generateMaze π ρ, Reach (generateMaze π ρ) (1, 1) c := by
  rw [generateMaze_eq]
  refine deadEndsLoop_conn ρ 357 _ _ ?_
  refine extraPassages_conn ρ 30 _ 0 ?_
  refine carveAux_conn π carveFuel (π 0) _ (1, 1) 1 (Finset.mem_insert_self _ _) ?_
  intro c hc
  rcases Finset.mem_insert.mp hc with rfl | hc
  · exact Relation.ReflTransGen.refl
  · exact absurd hc (Finset.not_mem_empty c)

theorem generateMaze_root (π : Nat → List CarveDir) (ρ : Nat → Nat) :
    (1, 1) ∈ generateMaze π ρ := by
  rw [generateMaze_eq]
  exact deadEndsLoop_subset ρ 357 _ _ (extraPassages_subset ρ 30 _ 0
    (carveAux_subset π carveFuel (π 0) _ (1, 1) 1 (Finset.mem_insert_self _ _)))

theorem generateMaze_rootNbr (π : Nat → List CarveDir) (ρ : Nat → Nat)
    (hπ : (π 0).Perm carveDirs) :
    (1, 2) ∈ generateMaze π ρ ∨ (2, 1) ∈ generateMaze π ρ := by
  rw [generateMaze_eq]
  have hlen : (π 0).length ≤ carveFuel := by
    rw [hπ.length_eq]
    norm_num [carveDirs, carveFuel]
  have hmem : CarveDir.down ∈ π 0 ∨ CarveDir.right ∈ π 0 := by
    left
    rw [hπ.mem_iff]
    decide
  rcases carveAux_start π (π 0) carveFuel 1 hlen hmem with h | h
  · exact Or.inl (deadEndsLoop_subset ρ 357 _ _ (extraPassages_subset ρ 30 _ 0 h))
  · exact Or.inr (deadEndsLoop_subset ρ 357 _ _ (extraPassages_subset ρ 30 _ 0 h))

theorem generateMaze_noDeg1 (π : Nat → List CarveDir) (ρ : Nat → Nat) :
    ∀ c ∈ generateMaze π ρ, countOpenNbrs (generateMaze π ρ) c ≠ 1 := by
  intro c hc h1
  have hint := generateMaze_interior π ρ c hc
  have hconv : (deadEndsLoop ρ 357 (extraPassages ρ 30 (carvedGrid π).1 0).1
      (extraPassages ρ 30 (carvedGrid π).1 0).2).2.2 = true := by
    refine deadEndsLoop_converges ρ 357 _ _ (preDeadEnds_interior π ρ) ?_
    have := interiorF_card_le
    omega
  have hnode := deadEndsLoop_noDeadEnds ρ 357 _ _ hconv c
    ((mem_interiorCells_iff c).mpr hint)
  rw [← generateMaze_eq] at hnode
  exact hnode ⟨hc, h1⟩

theorem generateMaze_deg1 (π : Nat → List CarveDir) (ρ : Nat → Nat)
    (hπ : (π 0).Perm carveDirs) :
    ∀ c ∈ generateMaze π ρ, 1 ≤ countOpenNbrs (generateMaze π ρ) c := by
  intro c hc
  by_cases hroot : c = (1, 1)
  · subst hroot
    rcases generateMaze_rootNbr π ρ hπ with h | h
    · refine countOpenNbrs_pos ⟨(0, 1), by decide, ?_⟩
      simpa using h
    · refine countOpenNbrs_pos ⟨(1, 0), by decide, ?_⟩
      simpa using h
  · have hreach := generateMaze_conn π ρ c hc
    rcases Relation.ReflTransGen.cases_tail hreach with h | ⟨b, hrb, hstep⟩
    · exact absurd h hroot
    · have hb : b ∈ generateMaze π ρ := by
        rcases reach_mem hrb with rfl | hb
        · exact generateMaze_root π ρ
        · exact hb
      exact countOpenNbrs_pos_of_adjacent hstep.1 hb

/-- The postcondition the specification states for every generated grid:
border ring all wall, no interior open cell of degree below 2, and the open
set connected from the start cell `(1, 1)`. -/
def mazePostcondition (G : Grid) : Prop :=
  (∀ p : Cell, (p.1 = 0 ∨ p.1 = MAZE_WIDTH - 1 ∨ p.2 = 0 ∨ p.2 = MAZE_HEIGHT - 1) →
    p ∉ G) ∧
  (∀ p ∈ G, isInterior p → 2 ≤ countOpenNbrs G p) ∧
  ((1, 1) ∈ G ∧ ∀ p ∈ G, Reach G (1, 1) p)

/-- C1: for every sequence of random draws (every direction-shuffle stream
whose entries are permutations of the four carve directions and every numeric
stream), the grid returned by `generateMaze` satisfies its postcondition:
every interior open cell has at least 2 open orthogonal neighbours, the open
cells form a single component reachable from the start cell `(1,1)`, and the
whole border ring is wall. -/
theorem C1_generate_maze_postcondition (π : Nat → List CarveDir) (ρ : Nat → Nat)
    (hπ : ∀ n, (π n).Perm carveDirs) :
    mazePostcondition (generateMaze π ρ) := by
  refine ⟨?_, ?_, generateMaze_root π ρ, generateMaze_conn π ρ⟩
  · intro p hp hmem
    have h := generateMaze_interior π ρ p hmem
    unfold isInterior at h
    unfold MAZE_WIDTH MAZE_HEIGHT at h hp
    rcases hp with h1 | h1 | h1 | h1 <;> omega
  · intro p hp _
    have h1 := generateMaze_deg1 π ρ (hπ 0) p hp
    have h2 := generateMaze_noDeg1 π ρ p hp
    omega

/-- Witness for C1 at the identity shuffle stream and the zero numeric
stream. -/
theorem C1_generate_maze_postcondition_witness :
    (∀ n, ((fun _ : Nat => carveDirs) n).Perm carveDirs) ∧
    mazePostcondition (generateMaze (fun _ : Nat => carveDirs) (fun _ : Nat => 0)) :=
  ⟨fun _ => List.Perm.refl _,
    C1_generate_maze_postcondition (fun _ => carveDirs) (fun _ => 0)
      (fun _ => List.Perm.refl _)⟩

/-- C6: the dead-end elimination loop terminates for every random stream and
every start grid whose open cells are interior: within a number of scans
bounded by the interior size, a scan finds no dead end (the fixed point is
reached), and the resulting grid has no open cell with exactly one open
orthogonal neighbour.  `generateMaze` runs the loop with fuel 357, which
exceeds the bound `interiorF.card + 1 ≤ 286`, so its loop always exits at
the fixed point. -/
theorem C6_dead_end_loop_terminates (ρ : Nat → Nat) (g : Grid) (k fuel : Nat)
    (hg : ∀ c ∈ g, isInterior c) (hfuel : interiorF.card - g.card < fuel) :
    (deadEndsLoop ρ fuel g k).2.2 = true ∧
    ∀ c ∈ (deadEndsLoop ρ fuel g k).1,
      countOpenNbrs (deadEndsLoop ρ fuel g k).1 c ≠ 1 := by
  have hconv := deadEndsLoop_converges ρ fuel g k hg hfuel
  refine ⟨hconv, ?_⟩
  intro c hc h1
  have hint : isInterior c := deadEndsLoop_interior ρ fuel g k hg c hc
  exact deadEndsLoop_noDeadEnds ρ fuel g k hconv c
    ((mem_interiorCells_iff c).mpr hint) ⟨hc, h1⟩

/-- Witness for C6 at the all-wall grid and the zero stream. -/
theorem C6_dead_end_loop_terminates_witness :
    ((∀ c ∈ (∅ : Grid), isInterior c) ∧
      interiorF.card - (∅ : Grid).card < interiorF.card + 1) ∧
    ((deadEndsLoop (fun _ : Nat => 0) (interiorF.card + 1) ∅ 0).2.2 = true ∧
      ∀ c ∈ (deadEndsLoop (fun _ : Nat => 0) (interiorF.card + 1) ∅ 0).1,
        countOpenNbrs (deadEndsLoop (fun _ : Nat => 0) (interiorF.card + 1) ∅ 0).1 c ≠ 1) :=
  ⟨⟨fun c hc => absurd hc (Finset.not_mem_empty c),
      by rw [Finset.card_empty]; omega⟩,
    C6_dead_end_loop_terminates (fun _ => 0) ∅ 0 (interiorF.card + 1)
      (fun c hc => absurd hc (Finset.not_mem_empty c))
      (by rw [Finset.card_empty]; omega)⟩

/-! ### Bone placement -/

/-- All cells of the grid in the scan order of `placeBones`
(`y` from 0 to 16 outer, `x` from 0 to 20 inner). -/
def fullCells : List Cell :=
  (List.range' 0 17).flatMap (fun y =>
    (List.range' 0 21).map (fun x => ((Nat.cast x : Int), (Nat.cast y : Int))))

/-- The scan of `placeBones`: every open cell other than the spawn `(1,1)`
draws a coin (`Math.random() < 0.4`) and receives a bone on success.  The
coin stream index advances only on qualifying cells, matching the one
`Math.random()` call per qualifying cell of the source. -/
def placeBonesAux (coins : Nat → Bool) :
    List Cell → Grid → Nat → List Cell → List Cell
  | [], _, _, acc => acc
  | c :: cs, g, k, acc =>
    if c ∈ g ∧ c ≠ (1, 1) then
      if coins k then placeBonesAux coins cs g (k + 1) (acc ++ [c])
      else placeBonesAux coins cs g (k + 1) acc
    else placeBonesAux coins cs g k acc

/-- `placeBones(maze)`. -/
def placeBones (g : Grid) (coins : Nat → Bool) : List Cell :=
  placeBonesAux coins fullCells g 0 []

/-! ### Game state and handlers -/

/-- The `gameState` phases of the source. -/
inductive Phase where
  | start
  | playing
  | paused
  | caught
  | levelComplete
  | won
  | lost
deriving DecidableEq

/-- The facing of the player sprite. -/
inductive Facing where
  | left
  | right
deriving DecidableEq

/-- The five special-item kinds. -/
inductive SpecialType where
  | drumstick
  | pizza
  | cookie
  | tennis
  | cheese
deriving DecidableEq

/-- `['drumstick', 'pizza', 'cookie', 'tennis', 'cheese']`. -/
def allSpecialTypes : List SpecialType :=
  [.drumstick, .pizza, .cookie, .tennis, .cheese]

/-- A dog catcher: `{ id, x, y }`. -/
structure Catcher where
  id : Nat
  x : Int
  y : Int
deriving DecidableEq

/-- A special item: `{ type, x, y }`. -/
structure SpecialItem where
  type : SpecialType
  x : Int
  y : Int
deriving DecidableEq

/-- The simulation state of the component: the `useState` cells that the
game logic reads and writes (presentation-only state such as fireworks,
cell size and the spawn animation is omitted). -/
structure GState where
  maze : Grid
  socksX : Int
  socksY : Int
  socksDir : Facing
  bones : List Cell
  catchers : List Catcher
  lives : Int
  score : Int
  phase : Phase
  heldDirection : Option Cell
  level : Nat
  dogTreat : Option Cell
  hasDogTreat : Bool
  specialItem : Option SpecialItem
  collectedSpecials : List SpecialType
  spawnedSpecials : List SpecialType
  catchersFrozen : Bool
  couchX : Int
  couchY : Int
deriving DecidableEq

/-- `MAX_LEVEL`. -/
def MAX_LEVEL : Nat := 3

/-- `COUCH_WIDTH`. -/
def COUCH_WIDTH : Int := 5

/-- `COUCH_HEIGHT`. -/
def COUCH_HEIGHT : Int := 3

/-- The safe-zone rectangle test for a cell, against a couch origin. -/
def onCouchCell (cx cy x y : Int) : Prop :=
  cx ≤ x ∧ x < cx + COUCH_WIDTH ∧ cy ≤ y ∧ y < cy + COUCH_HEIGHT

instance (cx cy x y : Int) : Decidable (onCouchCell cx cy x y) := by
  unfold onCouchCell; infer_instance

/-- The player is inside the safe zone (couch area). -/
def inSafeZone (st : GState) : Prop :=
  onCouchCell st.couchX st.couchY st.socksX st.socksY

instance (st : GState) : Decidable (inSafeZone st) := by
  unfold inSafeZone; infer_instance

/-- `Math.abs(x - sx) + Math.abs(y - sy)`. -/
def distI (x y sx sy : Int) : Int := |x - sx| + |y - sy|

/-- The movement guard of the `gameLoop`:
`newX >= 0 && newX < MAZE_WIDTH && newY >= 0 && newY < MAZE_HEIGHT &&
currentMaze[newY][newX] === 0`. -/
def canStep (st : GState) (d : Cell) : Prop :=
  0 ≤ st.socksX + d.1 ∧ st.socksX + d.1 < MAZE_WIDTH ∧
    0 ≤ st.socksY + d.2 ∧ st.socksY + d.2 < MAZE_HEIGHT ∧
    (st.socksX + d.1, st.socksY + d.2) ∈ st.maze

instance (st : GState) (d : Cell) : Decidable (canStep st d) := by
  unfold canStep; infer_instance

/-- One tick of the `gameLoop`: when playing with a held direction, step to
the target cell if it is in bounds and open, flipping the facing only on
horizontal moves.  The source re-checks the same target against the same
maze inside the `setSocks` updater; on a single state the two identical
checks collapse into one. -/
def moveTickStep (st : GState) : GState :=
  if st.phase = Phase.playing then
    match st.heldDirection with
    | none => st
    | some d =>
      let nx := st.socksX + d.1
      let ny := st.socksY + d.2
      if canStep st d then
        { st with
          socksX := nx
          socksY := ny
          socksDir := if 0 < d.1 then Facing.right
            else if d.1 < 0 then Facing.left else st.socksDir }
      else st
  else st

/-- The interior scan collecting cells that are open, at Manhattan distance
above 5 from the player, and off the couch — the identical `validPositions`
loops of the special-item spawn timer and of the final-level treat spawn. -/
def validSpawnPositions (st : GState) : List Cell :=
  interiorCells.filter (fun p => decide (p ∈ st.maze) &&
    decide (5 < distI p.1 p.2 st.socksX st.socksY) &&
    !decide (onCouchCell st.couchX st.couchY p.1 p.2))

/-- The bone-collection effect: remove a bone under the player, add 10
points; on the last bone either finish the level (below `MAX_LEVEL`) or, on
the final level, spawn the dog treat at a random valid cell and pause for
the treat message (doing nothing when no cell qualifies). -/
def boneCollectStep (st : GState) (r : Nat) : GState :=
  if st.phase = Phase.playing then
    match st.bones.findIdx? (fun b => b == (st.socksX, st.socksY)) with
    | none => st
    | some i =>
      let newBones := st.bones.eraseIdx i
      let st1 := { st with bones := newBones, score := st.score + 10 }
      if newBones = [] then
        let st2 := { st1 with heldDirection := none }
        if st.level < MAX_LEVEL then { st2 with phase := Phase.levelComplete }
        else
          let valid := validSpawnPositions st
          if h : valid ≠ [] then
            { st2 with
              dogTreat := some (valid.get
                ⟨r % valid.length, Nat.mod_lt _ (List.length_pos.mpr h)⟩)
              phase := Phase.paused }
          else st2
      else st1
  else st

/-- The dog-treat pickup effect. -/
def treatPickupStep (st : GState) : GState :=
  if st.phase = Phase.playing then
    match st.dogTreat with
    | none => st
    | some t =>
      if st.hasDogTreat then st
      else if st.socksX = t.1 ∧ st.socksY = t.2 then
        { st with hasDogTreat := true, dogTreat := none, score := st.score + 500 }
      else st
  else st

/-- The treat-delivery effect: entering the couch with the treat wins. -/
def treatDeliverStep (st : GState) : GState :=
  if st.phase = Phase.playing ∧ st.hasDogTreat = true then
    if onCouchCell st.couchX st.couchY st.socksX st.socksY then
      { st with heldDirection := none, phase := Phase.won, hasDogTreat := false }
    else st
  else st

/-- Stable insertion into a list sorted by `key`. -/
def insSorted {α : Type} (key : α → Int) (a : α) : List α → List α
  | [] => [a]
  | b :: l => if key a ≤ key b then a :: b :: l else b :: insSorted key a l

/-- Stable sort by `key`, modelling `Array.prototype.sort` with the
comparator `(a, b) => key(a) - key(b)` (ECMAScript sort is stable and this
comparator is consistent, so the result is the unique stable ascending
ordering). -/
def isortBy {α : Type} (key : α → Int) : List α → List α
  | [] => []
  | a :: l => insSorted key a (isortBy key l)

/-- The walkable-neighbour candidates of a catcher, in the enumeration order
of the source: right, left, down, up. -/
def catcherMoves (g : Grid) (cx cy : Int) : List Cell :=
  (if 0 ≤ cx + 1 ∧ cx + 1 < MAZE_WIDTH ∧ (cx + 1, cy) ∈ g then [(cx + 1, cy)] else []) ++
  (if 0 ≤ cx - 1 ∧ cx - 1 < MAZE_WIDTH ∧ (cx - 1, cy) ∈ g then [(cx - 1, cy)] else []) ++
  (if 0 ≤ cy + 1 ∧ cy + 1 < MAZE_HEIGHT ∧ (cx, cy + 1) ∈ g then [(cx, cy + 1)] else []) ++
  (if 0 ≤ cy - 1 ∧ cy - 1 < MAZE_HEIGHT ∧ (cx, cy - 1) ∈ g then [(cx, cy - 1)] else [])

/-- One firing of the catcher-movement interval for a single catcher, with
`greedy` the outcome of `Math.random() < 0.4` and `(tx, ty)` the player's
current cell: greedy moves to the head of the candidates sorted by Manhattan
distance, otherwise to a uniformly drawn candidate. -/
def moveCatcher (g : Grid) (tx ty : Int) (c : Catcher) (greedy : Bool) (r : Nat) :
    Catcher :=
  let moves := catcherMoves g c.x c.y
  if h : moves = [] then c
  else if greedy then
    let sorted := isortBy (fun m => distI m.1 m.2 tx ty) moves
    { c with x := (sorted.headD (c.x, c.y)).1, y := (sorted.headD (c.x, c.y)).2 }
  else
    let m := moves.get ⟨r % moves.length, Nat.mod_lt _ (List.length_pos.mpr h)⟩
    { c with x := m.1, y := m.2 }

/-- One firing of the catcher-movement interval over the whole roster. -/
def catcherMoveStep (st : GState) (coin : Nat → Bool) (r : Nat → Nat) : GState :=
  if st.phase = Phase.playing ∧ st.catchersFrozen = false then
    { st with catchers := st.catchers.enum.map (fun ic =>
        moveCatcher st.maze st.socksX st.socksY ic.2 (coin ic.1) (r ic.1)) }
  else st

/-- The full-grid scan of `findValidCatcherSpawn`: open, at Manhattan
distance above 5 from the player, off the couch, and not the spawn `(1,1)`. -/
def validCatcherPositions (st : GState) : List Cell :=
  fullCells.filter (fun p => decide (p ∈ st.maze) &&
    decide (5 < distI p.1 p.2 st.socksX st.socksY) &&
    !decide (onCouchCell st.couchX st.couchY p.1 p.2) &&
    !decide (p = (1, 1)))

/-- `findValidCatcherSpawn()`: a uniform pick among the qualifying cells,
falling back to `(MAZE_WIDTH - 2, MAZE_HEIGHT - 2)` when none qualifies. -/
def findValidCatcherSpawn (st : GState) (r : Nat) : Cell :=
  let valid := validCatcherPositions st
  if h : valid ≠ [] then
    valid.get ⟨r % valid.length, Nat.mod_lt _ (List.length_pos.mpr h)⟩
  else (MAZE_WIDTH - 2, MAZE_HEIGHT - 2)

/-- `RESPAWN_DELAY` of the frozen-catcher respawn timeout, in milliseconds
(`setTimeout(..., 4000)`). -/
def RESPAWN_DELAY_MS : Nat := 4000

/-- The respawn timeout body, firing `RESPAWN_DELAY_MS` after a frozen
catcher was eaten: append a catcher with id `Date.now()` (the `time`
argument) at a freshly computed valid position. -/
def respawnCatcher (st : GState) (time : Nat) (r : Nat) : GState :=
  let pos := findValidCatcherSpawn st r
  { st with catchers := st.catchers ++ [⟨time, pos.1, pos.2⟩] }

/-- The collision-with-catchers effect: outside the safe zone, a catcher on
the player's cell is either eaten (frozen: +1000 points, removed from the
roster; the respawn timeout is modelled separately by `respawnCatcher`) or
catches the player (lives decrement; `lost` when they reach 0, else
`caught`). -/
def collisionCheck (st : GState) : GState :=
  if st.phase = Phase.playing then
    if inSafeZone st then st
    else
      match st.catchers.find? (fun c => c.x == st.socksX && c.y == st.socksY) with
      | none => st
      | some c =>
        if st.catchersFrozen then
          { st with
            score := st.score + 1000
            catchers := st.catchers.filter (fun c2 => c2.id != c.id) }
        else
          let newLives := st.lives - 1
          { st with
            heldDirection := none
            lives := newLives
            phase := if newLives ≤ 0 then Phase.lost else Phase.caught }
  else st

/-- The special-item spawn timer body: with no item alive, draw a not-yet
spawned kind and a qualifying cell; spawn and record the kind, or do nothing
when no kind or no cell qualifies. -/
def specialSpawnStep (st : GState) (r1 r2 : Nat) : GState :=
  if st.phase = Phase.playing then
    match st.specialItem with
    | some _ => st
    | none =>
      let availableTypes := allSpecialTypes.filter (fun t => !st.spawnedSpecials.contains t)
      if availableTypes = [] then st
      else
        let valid := validSpawnPositions st
        if h : valid ≠ [] ∧ availableTypes ≠ [] then
          let pos := valid.get ⟨r1 % valid.length, Nat.mod_lt _ (List.length_pos.mpr h.1)⟩
          let t := availableTypes.get
            ⟨r2 % availableTypes.length, Nat.mod_lt _ (List.length_pos.mpr h.2)⟩
          { st with
            specialItem := some ⟨t, pos.1, pos.2⟩
            spawnedSpecials := st.spawnedSpecials ++ [t] }
        else st
  else st

/-- The special-item despawn timer (20 s): clear the live item. -/
def specialDespawnStep (st : GState) : GState :=
  if st.phase = Phase.playing then
    match st.specialItem with
    | some _ => { st with specialItem := none }
    | none => st
  else st

/-- The random-walk candidates of a moving item (special item and dog treat
use identical code), in source order: right, left, down, up. -/
def itemMoves (g : Grid) (x y : Int) : List Cell :=
  (if x + 1 < MAZE_WIDTH ∧ (x + 1, y) ∈ g then [(x + 1, y)] else []) ++
  (if 0 ≤ x - 1 ∧ (x - 1, y) ∈ g then [(x - 1, y)] else []) ++
  (if y + 1 < MAZE_HEIGHT ∧ (x, y + 1) ∈ g then [(x, y + 1)] else []) ++
  (if 0 ≤ y - 1 ∧ (x, y - 1) ∈ g then [(x, y - 1)] else [])

/-- One firing of the special-item movement interval (900 ms). -/
def specialMoveStep (st : GState) (r : Nat) : GState :=
  if st.phase = Phase.playing then
    match st.specialItem with
    | none => st
    | some it =>
      let moves := itemMoves st.maze it.x it.y
      if h : moves = [] then st
      else
        let m := moves.get ⟨r % moves.length, Nat.mod_lt _ (List.length_pos.mpr h)⟩
        { st with specialItem := some { it with x := m.1, y := m.2 } }
  else st

/-- One firing of the dog-treat movement interval (630 ms). -/
def treatMoveStep (st : GState) (r : Nat) : GState :=
  if st.phase = Phase.playing then
    match st.dogTreat with
    | none => st
    | some t =>
      let moves := itemMoves st.maze t.1 t.2
      if h : moves = [] then st
      else
        let m := moves.get ⟨r % moves.length, Nat.mod_lt _ (List.length_pos.mpr h)⟩
        { st with dogTreat := some m }
  else st

/-- The special-item pickup effect: +1000 points, record the kind as
collected, clear the item, freeze the catchers (the 3 s unfreeze timeout is
modelled separately by `unfreezeStep`). -/
def specialPickupStep (st : GState) : GState :=
  if st.phase = Phase.playing then
    match st.specialItem with
    | none => st
    | some it =>
      if st.socksX = it.x ∧ st.socksY = it.y then
        { st with
          score := st.score + 1000
          collectedSpecials := st.collectedSpecials ++ [it.type]
          specialItem := none
          catchersFrozen := true }
      else st
  else st

/-- The freeze-expiry timeout (3 s after a special pickup). -/
def unfreezeStep (st : GState) : GState := { st with catchersFrozen := false }

/-- `2 + lvl` catchers per level. -/
def getLevelCatcherCount (lvl : Nat) : Nat := 2 + lvl

/-- The fixed catcher start layout. -/
def catcherStartPositions : List Cell :=
  [(MAZE_WIDTH - 2, 1), (1, MAZE_HEIGHT - 2), (MAZE_WIDTH - 2, MAZE_HEIGHT - 2),
    (MAZE_WIDTH / 2, 1), (MAZE_WIDTH / 2, MAZE_HEIGHT - 2)]

/-- `createCatchers(lvl)`: the first `2 + lvl` layout positions with ids
`1, 2, ...`. -/
def createCatchers (lvl : Nat) : List Catcher :=
  (catcherStartPositions.take (getLevelCatcherCount lvl)).enum.map
    (fun ip => ⟨ip.1 + 1, ip.2.1, ip.2.2⟩)

/-- `couchX = Math.floor(MAZE_WIDTH / 2) - 2`. -/
def levelCouchX : Int := MAZE_WIDTH / 2 - 2

/-- `couchY = Math.floor(MAZE_HEIGHT / 2) - 1`. -/
def levelCouchY : Int := MAZE_HEIGHT / 2 - 1

/-- The cells forced open around the couch by `startLevel`: the 5×3 couch
block and the four approach-corridor cells (whose in-bounds guards in the
source all hold at these concrete coordinates). -/
def couchCells : List Cell :=
  ((List.range 3).flatMap (fun dy => (List.range 5).map
    (fun dx => (levelCouchX + (Nat.cast dx : Int), levelCouchY + (Nat.cast dy : Int))))) ++
  [(levelCouchX + 2, levelCouchY - 1), (levelCouchX + 2, levelCouchY + 3),
    (levelCouchX - 1, levelCouchY + 1), (levelCouchX + 5, levelCouchY + 1)]

/-- `startLevel(lvl)`: a fresh maze with the couch area carved open, bones
placed off the couch and off the Place label row, the player reset to
`(1,1)`, a fresh catcher roster and cleared per-level scheduler state. -/
def startLevel (lvl : Nat) (π : Nat → List CarveDir) (ρ : Nat → Nat)
    (coins : Nat → Bool) (st : GState) : GState :=
  let newMaze := couchCells.foldl (fun g c => insert c g) (generateMaze π ρ)
  let newBones := (placeBones newMaze coins).filter (fun b =>
    !decide (levelCouchX ≤ b.1 ∧ b.1 < levelCouchX + 5 ∧
      levelCouchY ≤ b.2 ∧ b.2 < levelCouchY + 3) &&
    !decide (levelCouchX + 1 ≤ b.1 ∧ b.1 < levelCouchX + 4 ∧ b.2 = levelCouchY + 3))
  { st with
    maze := newMaze
    socksX := 1
    socksY := 1
    socksDir := Facing.right
    bones := newBones
    catchers := createCatchers lvl
    phase := Phase.playing
    heldDirection := none
    specialItem := none
    spawnedSpecials := []
    dogTreat := none
    hasDogTreat := false
    catchersFrozen := false
    couchX := levelCouchX
    couchY := levelCouchY }

/-- `initGame()`: a new session at level 1. -/
def initGame (π : Nat → List CarveDir) (ρ : Nat → Nat) (coins : Nat → Bool)
    (st : GState) : GState :=
  startLevel 1 π ρ coins
    { st with level := 1, lives := 3, score := 0, collectedSpecials := [] }

/-- `nextLevel()`. -/
def nextLevel (π : Nat → List CarveDir) (ρ : Nat → Nat) (coins : Nat → Bool)
    (st : GState) : GState :=
  startLevel (st.level + 1) π ρ coins { st with level := st.level + 1 }

/-- `startAtLevel(lvl)` (the secret level selector). -/
def startAtLevel (lvl : Nat) (π : Nat → List CarveDir) (ρ : Nat → Nat)
    (coins : Nat → Bool) (st : GState) : GState :=
  startLevel lvl π ρ coins
    { st with level := lvl, lives := 3, score := 0, collectedSpecials := [] }

/-- `togglePause()`. -/
def togglePause (st : GState) : GState :=
  if st.phase = Phase.playing then { st with phase := Phase.paused, heldDirection := none }
  else if st.phase = Phase.paused then { st with phase := Phase.playing }
  else st

/-- `resetGame()`. -/
def resetGame (st : GState) : GState :=
  { st with
    phase := Phase.start
    level := 1
    lives := 3
    score := 0
    collectedSpecials := []
    heldDirection := none
    specialItem := none
    spawnedSpecials := []
    dogTreat := none
    hasDogTreat := false
    catchersFrozen := false }

/-- `resumeAfterCatch()`. -/
def resumeAfterCatch (st : GState) : GState :=
  { st with
    socksX := 1
    socksY := 1
    socksDir := Facing.right
    catchers := createCatchers st.level
    phase := Phase.playing }

/-- The initial pre-start state of the component: the source initialises
`bones` with `placeBones(generateMaze())` — a second, independent
`generateMaze()` draw — while the `maze` state holds the first draw; the
initial `couchPosition` is `{ x: 10, y: 7 }`. -/
def initialState (pi1 : Nat → List CarveDir) (rho1 : Nat → Nat)
    (pi2 : Nat → List CarveDir) (rho2 : Nat → Nat) (coins : Nat → Bool) : GState :=
  { maze := generateMaze pi1 rho1
    socksX := 1
    socksY := 1
    socksDir := Facing.right
    bones := placeBones (generateMaze pi2 rho2) coins
    catchers := []
    lives := 3
    score := 0
    phase := Phase.start
    heldDirection := none
    level := 1
    dogTreat := none
    hasDogTreat := false
    specialItem := none
    collectedSpecials := []
    spawnedSpecials := []
    catchersFrozen := false
    couchX := 10
    couchY := 7 }

/-! ### Claim theorems about the handlers -/

/-- A small concrete state used by the witnesses below. -/
def testState : GState :=
  { maze := {(1, 1), (2, 1), (3, 1)}
    socksX := 1
    socksY := 1
    socksDir := Facing.right
    bones := []
    catchers := []
    lives := 3
    score := 0
    phase := Phase.playing
    heldDirection := none
    level := 1
    dogTreat := none
    hasDogTreat := false
    specialItem := none
    collectedSpecials := []
    spawnedSpecials := []
    catchersFrozen := false
    couchX := 8
    couchY := 7 }

/-- C2: in phase `playing`, when the player shares a cell with some pursuer
outside the safe zone and the pursuers are not frozen, the catch handler
decrements lives by exactly 1 and moves to `caught` when the decremented
value is positive, `lost` otherwise; inside the safe zone lives and phase
are untouched. -/
theorem C2_catch_decrements_lives (st : GState) (hphase : st.phase = Phase.playing) :
    (¬inSafeZone st → st.catchersFrozen = false →
      (∃ c ∈ st.catchers, c.x = st.socksX ∧ c.y = st.socksY) →
      (collisionCheck st).lives = st.lives - 1 ∧
        (collisionCheck st).phase =
          (if 0 < st.lives - 1 then Phase.caught else Phase.lost)) ∧
    (inSafeZone st →
      (collisionCheck st).lives = st.lives ∧ (collisionCheck st).phase = st.phase) := by
  constructor
  · intro hsafe hfrozen hex
    have hfind : (st.catchers.find? (fun c => c.x == st.socksX && c.y == st.socksY)).isSome := by
      rw [List.find?_isSome]
      obtain ⟨c, hc, hx, hy⟩ := hex
      exact ⟨c, hc, by simp [hx, hy]⟩
    obtain ⟨c, hfc⟩ := Option.isSome_iff_exists.mp hfind
    rw [collisionCheck, if_pos hphase, if_neg hsafe, hfc]
    simp only [hfrozen, Bool.false_eq_true, if_false]
    constructor
    · trivial
    · by_cases h : st.lives - 1 ≤ 0
      · rw [if_pos h, if_neg (by omega)]
      · rw [if_neg h, if_pos (by omega)]
  · intro hsafe
    rw [collisionCheck, if_pos hphase, if_pos hsafe]
    exact ⟨rfl, rfl⟩

/-- Witness state for C2: a catcher on the player's cell, player outside the
couch, pursuers not frozen. -/
def stC2 : GState := { testState with catchers := [⟨1, 1, 1⟩] }

/-- Witness for C2. -/
theorem C2_catch_decrements_lives_witness :
    (stC2.phase = Phase.playing ∧ ¬inSafeZone stC2 ∧ stC2.catchersFrozen = false ∧
      (∃ c ∈ stC2.catchers, c.x = stC2.socksX ∧ c.y = stC2.socksY)) ∧
    ((collisionCheck stC2).lives = stC2.lives - 1 ∧
      (collisionCheck stC2).phase =
        (if 0 < stC2.lives - 1 then Phase.caught else Phase.lost)) :=
  ⟨⟨rfl, by decide, rfl, by decide⟩,
    (C2_catch_decrements_lives stC2 rfl).1 (by decide) rfl (by decide)⟩

/-- With phase `playing` and a held direction, a tick is exactly the guarded
single step. -/
theorem moveTickStep_eq_some (st : GState) (d : Cell)
    (hphase : st.phase = Phase.playing) (hheld : st.heldDirection = some d) :
    moveTickStep st =
      (if canStep st d then
        { st with
          socksX := st.socksX + d.1
          socksY := st.socksY + d.2
          socksDir := if 0 < d.1 then Facing.right
            else if d.1 < 0 then Facing.left else st.socksDir }
      else st) := by
  rw [moveTickStep, if_pos hphase, hheld]

/-- C3: a movement tick with a held unit direction moves the player by
exactly that unit step if and only if the target cell is in bounds and open;
a blocked tick leaves the whole player state unchanged; on a successful move
the facing becomes `right` for positive `dx`, `left` for negative `dx`, and
is preserved on vertical moves. -/
theorem C3_move_tick (st : GState) (d : Cell)
    (hphase : st.phase = Phase.playing) (hheld : st.heldDirection = some d)
    (hd : d ∈ nbrDirs) :
    (((moveTickStep st).socksX, (moveTickStep st).socksY) =
        (st.socksX + d.1, st.socksY + d.2) ↔ canStep st d) ∧
    (¬canStep st d → moveTickStep st = st) ∧
    (canStep st d →
      (0 < d.1 → (moveTickStep st).socksDir = Facing.right) ∧
      (d.1 < 0 → (moveTickStep st).socksDir = Facing.left) ∧
      (d.1 = 0 → (moveTickStep st).socksDir = st.socksDir)) := by
  have hd0 : d ≠ (0, 0) := by
    rcases List.mem_cons.mp hd with rfl | hd'
    · simp
    rcases List.mem_cons.mp hd' with rfl | hd''
    · simp
    rcases List.mem_cons.mp hd'' with rfl | hd'''
    · simp
    rcases List.mem_cons.mp hd''' with rfl | h
    · simp
    · exact absurd h (List.not_mem_nil d)
  rw [moveTickStep_eq_some st d hphase hheld]
  by_cases hcan : canStep st d
  · rw [if_pos hcan]
    refine ⟨⟨fun _ => hcan, fun _ => rfl⟩, fun hn => absurd hcan hn, ?_⟩
    intro _
    refine ⟨?_, ?_, ?_⟩
    · intro hpos
      simp only [if_pos hpos]
    · intro hneg
      rw [if_neg (by omega), if_pos hneg]
    · intro hzero
      rw [if_neg (by omega), if_neg (by omega)]
  · rw [if_neg hcan]
    refine ⟨⟨?_, fun h => absurd h hcan⟩, fun _ => rfl, fun h => absurd h hcan⟩
    intro heq
    exfalso
    rw [Prod.ext_iff] at heq
    obtain ⟨h1, h2⟩ := heq
    apply hd0
    rw [Prod.ext_iff]
    dsimp only at h1 h2 ⊢
    omega

/-- Witness state for C3: holding right with the target cell open. -/
def stC3 : GState := { testState with heldDirection := some (1, 0) }

/-- Witness for C3. -/
theorem C3_move_tick_witness :
    (stC3.phase = Phase.playing ∧ stC3.heldDirection = some (1, 0) ∧
      ((1, 0) : Cell) ∈ nbrDirs) ∧
    ((((moveTickStep stC3).socksX, (moveTickStep stC3).socksY) =
        (stC3.socksX + 1, stC3.socksY + 0) ↔ canStep stC3 (1, 0)) ∧
      (¬canStep stC3 (1, 0) → moveTickStep stC3 = stC3) ∧
      (canStep stC3 (1, 0) →
        (0 < (1 : Int) → (moveTickStep stC3).socksDir = Facing.right) ∧
        ((1 : Int) < 0 → (moveTickStep stC3).socksDir = Facing.left) ∧
        ((1 : Int) = 0 → (moveTickStep stC3).socksDir = stC3.socksDir))) :=
  ⟨⟨rfl, rfl, by decide⟩, C3_move_tick stC3 (1, 0) rfl rfl (by decide)⟩

/-- C4 counterexample: in a playing state with kinds still available but no
qualifying cell (every open cell is within Manhattan distance 5 of the
player), the special-item spawn step places nothing and leaves the state
unchanged — it does not fall back to a fixed default cell. -/
theorem C4_counterexample_special_spawn_skips :
    validSpawnPositions testState = [] ∧
    (∃ t ∈ allSpecialTypes, t ∉ testState.spawnedSpecials) ∧
    testState.specialItem = none ∧ testState.phase = Phase.playing ∧
    specialSpawnStep testState 0 0 = testState ∧
    (specialSpawnStep testState 0 0).specialItem = none := by decide

/-- C4 amended: only the pursuer respawn falls back to the fixed default
cell `(MAZE_WIDTH-2, MAZE_HEIGHT-2)` and still places the pursuer when no
cell qualifies; the special-item spawn and the final-level treat spawn skip
the placement entirely in that case (no item appears, the state's spawn slot
stays as it was). -/
theorem C4_spawn_fallback_amended (st : GState) (r1 r2 time rr : Nat)
    (hcatch : validCatcherPositions st = [])
    (hspec : validSpawnPositions st = []) :
    findValidCatcherSpawn st r1 = (MAZE_WIDTH - 2, MAZE_HEIGHT - 2) ∧
    (respawnCatcher st time r1).catchers =
      st.catchers ++ [⟨time, MAZE_WIDTH - 2, MAZE_HEIGHT - 2⟩] ∧
    specialSpawnStep st r1 r2 = st ∧
    (boneCollectStep st rr).dogTreat = st.dogTreat := by
  have h1 : findValidCatcherSpawn st r1 = (MAZE_WIDTH - 2, MAZE_HEIGHT - 2) := by
    rw [findValidCatcherSpawn, dif_neg]
    intro hne
    exact hne hcatch
  refine ⟨h1, ?_, ?_, ?_⟩
  · rw [respawnCatcher, h1]
  · rw [specialSpawnStep]
    split
    · split
      · rfl
      · dsimp only
        split
        · rfl
        · rw [dif_neg]
          intro hcon
          exact hcon.1 hspec
    · rfl
  · rw [boneCollectStep]
    split
    · split
      · rfl
      · dsimp only
        split
        · split
          · rfl
          · rw [dif_neg]
            intro hne
            exact hne hspec
        · rfl
    · rfl

/-- Witness for the amended C4 at the concrete no-qualifying-cell state. -/
theorem C4_spawn_fallback_amended_witness :
    (validCatcherPositions testState = [] ∧ validSpawnPositions testState = []) ∧
    (findValidCatcherSpawn testState 0 = (MAZE_WIDTH - 2, MAZE_HEIGHT - 2) ∧
      (respawnCatcher testState 7 0).catchers =
        testState.catchers ++ [⟨7, MAZE_WIDTH - 2, MAZE_HEIGHT - 2⟩] ∧
      specialSpawnStep testState 0 0 = testState ∧
      (boneCollectStep testState 0).dogTreat = testState.dogTreat) :=
  ⟨⟨by decide, by decide⟩,
    C4_spawn_fallback_amended testState 0 0 7 0 (by decide) (by decide)⟩

/-- C5: the special-item spawn step either leaves the state unchanged or
spawns a kind that has not yet been recorded this level, appending it to the
record; once all 5 kinds are recorded it always leaves the state unchanged;
the record stays duplicate-free; and `startLevel` resets the record to
empty. -/
theorem C5_special_uniqueness :
    (∀ (st : GState) (r1 r2 : Nat),
      specialSpawnStep st r1 r2 = st ∨
      ∃ (t : SpecialType) (pos : Cell), t ∉ st.spawnedSpecials ∧
        (specialSpawnStep st r1 r2).specialItem = some ⟨t, pos.1, pos.2⟩ ∧
        (specialSpawnStep st r1 r2).spawnedSpecials = st.spawnedSpecials ++ [t]) ∧
    (∀ (st : GState) (r1 r2 : Nat),
      (∀ t ∈ allSpecialTypes, t ∈ st.spawnedSpecials) →
      specialSpawnStep st r1 r2 = st) ∧
    (∀ (st : GState) (r1 r2 : Nat), st.spawnedSpecials.Nodup →
      (specialSpawnStep st r1 r2).spawnedSpecials.Nodup) ∧
    (∀ (lvl : Nat) (π : Nat → List CarveDir) (ρ : Nat → Nat) (coins : Nat → Bool)
      (st : GState), (startLevel lvl π ρ coins st).spawnedSpecials = []) := by
  have hmain : ∀ (st : GState) (r1 r2 : Nat),
      specialSpawnStep st r1 r2 = st ∨
      ∃ (t : SpecialType) (pos : Cell), t ∉ st.spawnedSpecials ∧
        (specialSpawnStep st r1 r2).specialItem = some ⟨t, pos.1, pos.2⟩ ∧
        (specialSpawnStep st r1 r2).spawnedSpecials = st.spawnedSpecials ++ [t] := by
    intro st r1 r2
    rw [specialSpawnStep]
    split
    · split
      · exact Or.inl rfl
      · dsimp only
        split
        · exact Or.inl rfl
        · split
          case isTrue hcond =>
            right
            set avail := allSpecialTypes.filter (fun t => !st.spawnedSpecials.contains t)
              with havail
            set t := avail.get
              ⟨r2 % avail.length, Nat.mod_lt _ (List.length_pos.mpr hcond.2)⟩ with ht
            have htmem : t ∈ avail := List.get_mem _ _ _
            have htfresh : t ∉ st.spawnedSpecials := by
              rw [havail] at htmem
              have hf := List.mem_filter.mp htmem
              intro hmem
              simp [hmem] at hf
            exact ⟨t, _, htfresh, rfl, rfl⟩
          case isFalse hcond => exact Or.inl rfl
    · exact Or.inl rfl
  refine ⟨hmain, ?_, ?_, ?_⟩
  · intro st r1 r2 hall
    rw [specialSpawnStep]
    split
    · split
      · rfl
      · dsimp only
        split
        · rfl
        · case isFalse hne =>
            exfalso
            apply hne
            rw [List.filter_eq_nil_iff]
            intro t htmem
            simp [hall t htmem]
    · rfl
  · intro st r1 r2 hnodup
    rcases hmain st r1 r2 with heq | ⟨t, pos, hfresh, _, happ⟩
    · rw [heq]
      exact hnodup
    · rw [happ]
      simp [List.nodup_append, hnodup, hfresh]
  · intro lvl π ρ coins st
    rfl

/-- Witness state for C5: all five kinds already recorded. -/
def stC5 : GState := { testState with spawnedSpecials := allSpecialTypes }

/-- Witness for C5. -/
theorem C5_special_uniqueness_witness :
    ((∀ t ∈ allSpecialTypes, t ∈ stC5.spawnedSpecials) ∧ stC5.spawnedSpecials.Nodup) ∧
    (specialSpawnStep stC5 0 0 = stC5 ∧
      (specialSpawnStep stC5 0 0).spawnedSpecials.Nodup ∧
      (startLevel 1 (fun _ => carveDirs) (fun _ => 0) (fun _ => true)
        testState).spawnedSpecials = []) :=
  ⟨⟨by decide, by decide⟩,
    C5_special_uniqueness.2.1 stC5 0 0 (by decide),
    C5_special_uniqueness.2.2.1 stC5 0 0 (by decide),
    C5_special_uniqueness.2.2.2 1 (fun _ => carveDirs) (fun _ => 0) (fun _ => true)
      testState⟩

/-- Counterexample state for C8: the player stands on frozen catcher 1 while
catcher 100 roams; the later respawn timestamp collides with id 100. -/
def stC8 : GState :=
  { testState with
    catchers := [⟨1, 1, 1⟩, ⟨100, 3, 1⟩]
    catchersFrozen := true }

/-- C8 counterexample: the respawned pursuer's id is the spawn timestamp
(`Date.now()`), which the code never checks against the roster — respawning
at time 100 while catcher 100 is still in the roster yields two pursuers
with the same id, so the "new id distinct from ids of the current roster"
part of the claim is false. -/
theorem C8_counterexample_duplicate_id :
    (stC8.phase = Phase.playing ∧ stC8.catchersFrozen = true ∧ ¬inSafeZone stC8 ∧
      (∃ c ∈ stC8.catchers, c.x = stC8.socksX ∧ c.y = stC8.socksY)) ∧
    (∃ c ∈ (collisionCheck stC8).catchers, c.id = 100) ∧
    (respawnCatcher (collisionCheck stC8) 100 0).catchers.map (fun c => c.id) =
      [100, 100] := by decide

/-- C8 amended: on a frozen collision the matched pursuer is removed, 1000
points are awarded, no life is lost and the phase stays `playing`; the
respawn body fires after the fixed `RESPAWN_DELAY_MS = 4000` and appends a
pursuer at a freshly computed valid position whose id is the spawn
timestamp — an id the code does not check against the current roster. -/
theorem C8_frozen_catch_amended (st : GState) (time r : Nat) (c : Catcher)
    (hphase : st.phase = Phase.playing) (hsafe : ¬inSafeZone st)
    (hfrozen : st.catchersFrozen = true)
    (hfind : st.catchers.find? (fun c2 => c2.x == st.socksX && c2.y == st.socksY) =
      some c) :
    (collisionCheck st).score = st.score + 1000 ∧
    (collisionCheck st).lives = st.lives ∧
    (collisionCheck st).phase = Phase.playing ∧
    (collisionCheck st).catchers = st.catchers.filter (fun c2 => c2.id != c.id) ∧
    (∀ c2 ∈ (collisionCheck st).catchers, c2.id ≠ c.id) ∧
    (respawnCatcher (collisionCheck st) time r).catchers =
      (collisionCheck st).catchers ++
        [⟨time, (findValidCatcherSpawn (collisionCheck st) r).1,
          (findValidCatcherSpawn (collisionCheck st) r).2⟩] ∧
    RESPAWN_DELAY_MS = 4000 := by
  have hcc : collisionCheck st =
      { st with
        score := st.score + 1000
        catchers := st.catchers.filter (fun c2 => c2.id != c.id) } := by
    rw [collisionCheck, if_pos hphase, if_neg hsafe, hfind, hfrozen]
    rfl
  rw [hcc]
  refine ⟨rfl, rfl, hphase, rfl, ?_, rfl, rfl⟩
  intro c2 hc2
  have hf := List.mem_filter.mp hc2
  intro heq
  rw [heq] at hf
  simp at hf

/-- Witness state for C8: single frozen catcher on the player's cell. -/
def stC8w : GState :=
  { testState with
    catchers := [⟨1, 1, 1⟩]
    catchersFrozen := true }

/-- Witness for the amended C8. -/
theorem C8_frozen_catch_amended_witness :
    (stC8w.phase = Phase.playing ∧ ¬inSafeZone stC8w ∧ stC8w.catchersFrozen = true ∧
      stC8w.catchers.find? (fun c2 => c2.x == stC8w.socksX && c2.y == stC8w.socksY) =
        some ⟨1, 1, 1⟩) ∧
    ((collisionCheck stC8w).score = stC8w.score + 1000 ∧
      (collisionCheck stC8w).lives = stC8w.lives ∧
      (collisionCheck stC8w).phase = Phase.playing ∧
      (collisionCheck stC8w).catchers =
        stC8w.catchers.filter (fun c2 => c2.id != (1 : Nat)) ∧
      (∀ c2 ∈ (collisionCheck stC8w).catchers, c2.id ≠ 1) ∧
      (respawnCatcher (collisionCheck stC8w) 500 0).catchers =
        (collisionCheck stC8w).catchers ++
          [⟨500, (findValidCatcherSpawn (collisionCheck stC8w) 0).1,
            (findValidCatcherSpawn (collisionCheck stC8w) 0).2⟩] ∧
      RESPAWN_DELAY_MS = 4000) :=
  ⟨⟨rfl, by decide, rfl, by decide⟩,
    C8_frozen_catch_amended stC8w 500 0 ⟨1, 1, 1⟩ rfl (by decide) rfl (by decide)⟩

theorem insSorted_ne_nil {α : Type} (key : α → Int) (a : α) (l : List α) :
    insSorted key a l ≠ [] := by
  cases l with
  | nil => simp [insSorted]
  | cons b l =>
    rw [insSorted]
    split <;> simp

theorem isortBy_ne_nil {α : Type} (key : α → Int) (x : α) (l : List α) :
    isortBy key (x :: l) ≠ [] := by
  rw [isortBy]
  exact insSorted_ne_nil key x _

/-- The head of the stable sort is the first element of the original list
attaining the minimal key: it is a lower bound for every key, and `find?` on
the key of the head returns the head itself. -/
theorem isortBy_head_min {α : Type} (key : α → Int) :
    ∀ (l : List α) (x : α) (dflt : α),
      (∀ m ∈ x :: l, key ((isortBy key (x :: l)).headD dflt) ≤ key m) ∧
      (x :: l).find? (fun m => key m == key ((isortBy key (x :: l)).headD dflt)) =
        some ((isortBy key (x :: l)).headD dflt) := by
  intro l
  induction l with
  | nil =>
    intro x dflt
    constructor
    · intro m hm
      rcases List.mem_cons.mp hm with rfl | hm
      · simp [isortBy, insSorted]
      · exact absurd hm (List.not_mem_nil m)
    · simp [isortBy, insSorted, List.find?]
  | cons y ys ih =>
    intro x dflt
    obtain ⟨s0, s', hs⟩ := List.exists_cons_of_ne_nil (isortBy_ne_nil key y ys)
    have ih' := ih y dflt
    rw [hs, List.headD_cons] at ih'
    have hsort : isortBy key (x :: y :: ys) = insSorted key x (s0 :: s') := by
      rw [isortBy, hs]
    by_cases hxy : key x ≤ key s0
    · have hhead : (isortBy key (x :: y :: ys)).headD dflt = x := by
        rw [hsort, insSorted, if_pos hxy, List.headD_cons]
      rw [hhead]
      constructor
      · intro m hm
        rcases List.mem_cons.mp hm with rfl | hm
        · exact le_refl _
        · exact le_trans hxy (ih'.1 m hm)
      · exact List.find?_cons_of_pos _ (by simp)
    · have hlt : key s0 < key x := lt_of_not_ge hxy
      have hhead : (isortBy key (x :: y :: ys)).headD dflt = s0 := by
        rw [hsort, insSorted, if_neg hxy, List.headD_cons]
      rw [hhead]
      constructor
      · intro m hm
        rcases List.mem_cons.mp hm with rfl | hm
        · exact le_of_lt hlt
        · exact ih'.1 m hm
      · rw [List.find?_cons_of_neg _ (by simp; omega)]
        exact ih'.2

/-- C9: when the greedy branch of the catcher step fires (probability 0.4
in the source) and at least one walkable candidate exists, the catcher moves
to a candidate of minimal Manhattan distance to the player, and among
equal-distance candidates to the one that comes first in the enumeration
order right, left, down, up (`find?` returns the first list element whose
distance equals the chosen one, and it is exactly the chosen cell). -/
theorem C9_greedy_tiebreak (g : Grid) (tx ty : Int) (c : Catcher) (r : Nat)
    (h : catcherMoves g c.x c.y ≠ []) :
    ((moveCatcher g tx ty c true r).x, (moveCatcher g tx ty c true r).y) ∈
      catcherMoves g c.x c.y ∧
    (∀ m ∈ catcherMoves g c.x c.y,
      distI (moveCatcher g tx ty c true r).x (moveCatcher g tx ty c true r).y tx ty ≤
        distI m.1 m.2 tx ty) ∧
    (catcherMoves g c.x c.y).find? (fun m => distI m.1 m.2 tx ty ==
        distI (moveCatcher g tx ty c true r).x (moveCatcher g tx ty c true r).y tx ty) =
      some ((moveCatcher g tx ty c true r).x, (moveCatcher g tx ty c true r).y) := by
  obtain ⟨m0, ms, hm⟩ := List.exists_cons_of_ne_nil h
  have hres : moveCatcher g tx ty c true r =
      { c with
        x := ((isortBy (fun m => distI m.1 m.2 tx ty) (catcherMoves g c.x c.y)).headD
          (c.x, c.y)).1
        y := ((isortBy (fun m => distI m.1 m.2 tx ty) (catcherMoves g c.x c.y)).headD
          (c.x, c.y)).2 } := by
    rw [moveCatcher, dif_neg (by rw [hm]; simp)]
    rfl
  have hkey := isortBy_head_min (fun m => distI m.1 m.2 tx ty) ms m0 ((c.x, c.y) : Cell)
  rw [hres, hm]
  dsimp only
  have hpair : (((isortBy (fun m => distI m.1 m.2 tx ty) (m0 :: ms)).headD (c.x, c.y)).1,
      ((isortBy (fun m => distI m.1 m.2 tx ty) (m0 :: ms)).headD (c.x, c.y)).2) =
      (isortBy (fun m => distI m.1 m.2 tx ty) (m0 :: ms)).headD (c.x, c.y) := rfl
  rw [hpair]
  refine ⟨?_, hkey.1, hkey.2⟩
  exact List.mem_of_find?_eq_some hkey.2

/-- Witness state for C9: all four neighbours of the catcher at `(3, 3)` are
open and the player sits on the catcher's own cell, so all four candidates
tie at distance 1 and the first enumerated one (right) is chosen. -/
def stC9maze : Grid := {(3, 3), (4, 3), (2, 3), (3, 4), (3, 2)}

/-- Witness for C9. -/
theorem C9_greedy_tiebreak_witness :
    (catcherMoves stC9maze 3 3 ≠ []) ∧
    (((moveCatcher stC9maze 3 3 ⟨1, 3, 3⟩ true 0).x,
        (moveCatcher stC9maze 3 3 ⟨1, 3, 3⟩ true 0).y) ∈ catcherMoves stC9maze 3 3 ∧
      (∀ m ∈ catcherMoves stC9maze 3 3,
        distI (moveCatcher stC9maze 3 3 ⟨1, 3, 3⟩ true 0).x
            (moveCatcher stC9maze 3 3 ⟨1, 3, 3⟩ true 0).y 3 3 ≤
          distI m.1 m.2 3 3) ∧
      (catcherMoves stC9maze 3 3).find? (fun m => distI m.1 m.2 3 3 ==
          distI (moveCatcher stC9maze 3 3 ⟨1, 3, 3⟩ true 0).x
            (moveCatcher stC9maze 3 3 ⟨1, 3, 3⟩ true 0).y 3 3) =
        some ((moveCatcher stC9maze 3 3 ⟨1, 3, 3⟩ true 0).x,
          (moveCatcher stC9maze 3 3 ⟨1, 3, 3⟩ true 0).y)) :=
  ⟨by decide, C9_greedy_tiebreak stC9maze 3 3 ⟨1, 3, 3⟩ 0 (by decide)⟩

/-! ### Score accounting -/

theorem moveTickStep_score (st : GState) : (moveTickStep st).score = st.score := by
  rw [moveTickStep]
  split
  · split
    · rfl
    · dsimp only
      split <;> rfl
  · rfl

theorem collisionCheck_score (st : GState) : st.score ≤ (collisionCheck st).score := by
  rw [collisionCheck]
  split
  · split
    · exact le_refl _
    · split
      · exact le_refl _
      · split
        · dsimp only
          omega
        · dsimp only
          exact le_refl _
  · exact le_refl _

theorem boneCollectStep_score (st : GState) (r : Nat) :
    st.score ≤ (boneCollectStep st r).score := by
  rw [boneCollectStep]
  split
  · split
    · exact le_refl _
    · dsimp only
      split
      · split
        · dsimp only
          omega
        · split
          · dsimp only
            omega
          · dsimp only
            omega
      · dsimp only
        omega
  · exact le_refl _

theorem specialSpawnStep_score (st : GState) (r1 r2 : Nat) :
    (specialSpawnStep st r1 r2).score = st.score := by
  rw [specialSpawnStep]
  split
  · split
    · rfl
    · dsimp only
      split
      · rfl
      · split <;> rfl
  · rfl

theorem specialDespawnStep_score (st : GState) :
    (specialDespawnStep st).score = st.score := by
  rw [specialDespawnStep]
  split
  · split <;> rfl
  · rfl

theorem specialMoveStep_score (st : GState) (r : Nat) :
    (specialMoveStep st r).score = st.score := by
  rw [specialMoveStep]
  split
  · split
    · rfl
    · dsimp only
      split <;> rfl
  · rfl

theorem specialPickupStep_score (st : GState) :
    st.score ≤ (specialPickupStep st).score := by
  rw [specialPickupStep]
  split
  · split
    · exact le_refl _
    · split
      · dsimp only
        omega
      · exact le_refl _
  · exact le_refl _

theorem treatMoveStep_score (st : GState) (r : Nat) :
    (treatMoveStep st r).score = st.score := by
  rw [treatMoveStep]
  split
  · split
    · rfl
    · dsimp only
      split <;> rfl
  · rfl

theorem treatPickupStep_score (st : GState) :
    st.score ≤ (treatPickupStep st).score := by
  rw [treatPickupStep]
  split
  · split
    · exact le_refl _
    · split
      · exact le_refl _
      · split
        · dsimp only
          omega
        · exact le_refl _
  · exact le_refl _

theorem treatDeliverStep_score (st : GState) :
    (treatDeliverStep st).score = st.score := by
  rw [treatDeliverStep]
  split
  · split <;> rfl
  · rfl

theorem catcherMoveStep_score (st : GState) (coin : Nat → Bool) (r : Nat → Nat) :
    (catcherMoveStep st coin r).score = st.score := by
  rw [catcherMoveStep]
  split <;> rfl

/-! ### The session operations, for score monotonicity -/

/-- Every state-mutating operation of a session, with its random draws
(and, for the respawn, the `Date.now()` timestamp) as arguments. -/
inductive Op where
  | move
  | collision
  | boneCollect (r : Nat)
  | specialSpawn (r1 r2 : Nat)
  | specialDespawn
  | specialMove (r : Nat)
  | specialPickup
  | treatMove (r : Nat)
  | treatPickup
  | treatDeliver
  | catcherMove (coin : Nat → Bool) (r : Nat → Nat)
  | respawn (time r : Nat)
  | unfreeze
  | pauseToggle
  | ackCaught
  | advanceLevel (π : Nat → List CarveDir) (ρ : Nat → Nat) (coins : Nat → Bool)
  | newGame (π : Nat → List CarveDir) (ρ : Nat → Nat) (coins : Nat → Bool)
  | levelSelect (lvl : Nat) (π : Nat → List CarveDir) (ρ : Nat → Nat) (coins : Nat → Bool)
  | reset

/-- The explicit session resets: `initGame` (new game), `startAtLevel`
(level selector) and `resetGame`. -/
def Op.isReset : Op → Bool
  | .newGame _ _ _ => true
  | .levelSelect _ _ _ _ => true
  | .reset => true
  | _ => false

/-- Dispatch an operation to its handler. -/
def applyOp : Op → GState → GState
  | .move, st => moveTickStep st
  | .collision, st => collisionCheck st
  | .boneCollect r, st => boneCollectStep st r
  | .specialSpawn r1 r2, st => specialSpawnStep st r1 r2
  | .specialDespawn, st => specialDespawnStep st
  | .specialMove r, st => specialMoveStep st r
  | .specialPickup, st => specialPickupStep st
  | .treatMove r, st => treatMoveStep st r
  | .treatPickup, st => treatPickupStep st
  | .treatDeliver, st => treatDeliverStep st
  | .catcherMove coin r, st => catcherMoveStep st coin r
  | .respawn time r, st => respawnCatcher st time r
  | .unfreeze, st => unfreezeStep st
  | .pauseToggle, st => togglePause st
  | .ackCaught, st => resumeAfterCatch st
  | .advanceLevel π ρ coins, st => nextLevel π ρ coins st
  | .newGame π ρ coins, st => initGame π ρ coins st
  | .levelSelect lvl π ρ coins, st => startAtLevel lvl π ρ coins st
  | .reset, st => resetGame st

/-- C10: no operation other than an explicit session reset ever lowers the
score (every in-play score update adds a non-negative amount), the resets
set it to 0, and hence over any reset-free operation sequence the score is
monotone non-decreasing. -/
theorem C10_score_monotone :
    (∀ (op : Op) (st : GState), op.isReset = false → st.score ≤ (applyOp op st).score) ∧
    (∀ (op : Op) (st : GState), op.isReset = true → (applyOp op st).score = 0) ∧
    (∀ (ops : List Op) (st : GState), (∀ op ∈ ops, op.isReset = false) →
      st.score ≤ (ops.foldl (fun s op => applyOp op s) st).score) := by
  have h1 : ∀ (op : Op) (st : GState), op.isReset = false →
      st.score ≤ (applyOp op st).score := by
    intro op st hop
    cases op with
    | move => rw [applyOp, moveTickStep_score]
    | collision => exact collisionCheck_score st
    | boneCollect r => exact boneCollectStep_score st r
    | specialSpawn r1 r2 => rw [applyOp, specialSpawnStep_score]
    | specialDespawn => rw [applyOp, specialDespawnStep_score]
    | specialMove r => rw [applyOp, specialMoveStep_score]
    | specialPickup => exact specialPickupStep_score st
    | treatMove r => rw [applyOp, treatMoveStep_score]
    | treatPickup => exact treatPickupStep_score st
    | treatDeliver => rw [applyOp, treatDeliverStep_score]
    | catcherMove coin r => rw [applyOp, catcherMoveStep_score]
    | respawn time r => exact le_refl _
    | unfreeze => exact le_refl _
    | pauseToggle =>
      rw [applyOp, togglePause]
      split
      · exact le_refl _
      · split <;> exact le_refl _
    | ackCaught => exact le_refl _
    | advanceLevel π ρ coins => exact le_refl _
    | newGame π ρ coins => exact Bool.noConfusion hop
    | levelSelect lvl π ρ coins => exact Bool.noConfusion hop
    | reset => exact Bool.noConfusion hop
  refine ⟨h1, ?_, ?_⟩
  · intro op st hop
    cases op with
    | newGame π ρ coins => rfl
    | levelSelect lvl π ρ coins => rfl
    | reset => rfl
    | move => exact Bool.noConfusion hop
    | collision => exact Bool.noConfusion hop
    | boneCollect r => exact Bool.noConfusion hop
    | specialSpawn r1 r2 => exact Bool.noConfusion hop
    | specialDespawn => exact Bool.noConfusion hop
    | specialMove r => exact Bool.noConfusion hop
    | specialPickup => exact Bool.noConfusion hop
    | treatMove r => exact Bool.noConfusion hop
    | treatPickup => exact Bool.noConfusion hop
    | treatDeliver => exact Bool.noConfusion hop
    | catcherMove coin r => exact Bool.noConfusion hop
    | respawn time r => exact Bool.noConfusion hop
    | unfreeze => exact Bool.noConfusion hop
    | pauseToggle => exact Bool.noConfusion hop
    | ackCaught => exact Bool.noConfusion hop
    | advanceLevel π ρ coins => exact Bool.noConfusion hop
  · intro ops
    induction ops with
    | nil => intro st _; exact le_refl _
    | cons op ops ih =>
      intro st hall
      refine le_trans (h1 op st (hall op (List.mem_cons_self _ _))) ?_
      exact ih _ (fun o ho => hall o (List.mem_cons_of_mem _ ho))

/-- Witness for C10. -/
theorem C10_score_monotone_witness :
    (Op.reset.isReset = true ∧ (applyOp Op.reset testState).score = 0) ∧
    (Op.specialPickup.isReset = false ∧
      testState.score ≤ (applyOp Op.specialPickup testState).score) ∧
    ((∀ op ∈ ([Op.move] : List Op), op.isReset = false) ∧
      testState.score ≤
        (([Op.move] : List Op).foldl (fun s op => applyOp op s) testState).score) :=
  ⟨⟨rfl, C10_score_monotone.2.1 Op.reset testState rfl⟩,
    ⟨rfl, C10_score_monotone.1 Op.specialPickup testState rfl⟩,
    ⟨by decide, C10_score_monotone.2.2 [Op.move] testState (by decide)⟩⟩

/-! ### The initial-state bone placement (C7) -/

theorem placeBonesAux_mem (coins : Nat → Bool) :
    ∀ (cs : List Cell) (g : Grid) (k : Nat) (acc : List Cell),
      ∀ b ∈ placeBonesAux coins cs g k acc, b ∈ acc ∨ b ∈ g := by
  intro cs
  induction cs with
  | nil => intro g k acc b hb; rw [placeBonesAux] at hb; exact Or.inl hb
  | cons c cs ih =>
    intro g k acc b hb
    rw [placeBonesAux] at hb
    split at hb
    case isTrue hc =>
      split at hb
      · rcases ih g (k + 1) (acc ++ [c]) b hb with h | h
        · rcases List.mem_append.mp h with h' | h'
          · exact Or.inl h'
          · rw [List.mem_singleton.mp h']
            exact Or.inr hc.1
        · exact Or.inr h
      · exact ih g (k + 1) acc b hb
    case isFalse hc => exact ih g k acc b hb

/-- Every bone `placeBones` produces is an open cell of the maze it was
given. -/
theorem placeBones_subset (g : Grid) (coins : Nat → Bool) :
    ∀ b ∈ placeBones g coins, b ∈ g := by
  intro b hb
  rcases placeBonesAux_mem coins fullCells g 0 [] b hb with h | h
  · exact absurd h (List.not_mem_nil b)
  · exact h

/-- C7 (the faulty wiring at initialisation): in the initial pre-start
state, the `maze` state holds one `generateMaze()` draw while the bones are
placed with `placeBones(generateMaze())` on a second, independent draw.
Every initial bone is an open cell of that second maze — nothing ties it to
the grid actually stored in the state, so a pre-start bone can sit on a wall
of the current grid whenever the two draws differ there. -/
theorem C7_initial_bones_on_second_maze (pi1 pi2 : Nat → List CarveDir)
    (rho1 rho2 : Nat → Nat) (coins : Nat → Bool) :
    (initialState pi1 rho1 pi2 rho2 coins).maze = generateMaze pi1 rho1 ∧
    (initialState pi1 rho1 pi2 rho2 coins).bones =
      placeBones (generateMaze pi2 rho2) coins ∧
    ∀ b ∈ (initialState pi1 rho1 pi2 rho2 coins).bones, b ∈ generateMaze pi2 rho2 :=
  ⟨rfl, rfl, fun b hb => placeBones_subset _ _ b hb⟩
